import Mathlib

/-!
# cchecker: runtime borrow checking (`cchecker.hpp`)

Shallow embedding of the header `src/cchecker.hpp`.

* Every C++ `assert` is a check that either lets the method continue or stops it
  with the `Violation` that names the assertion message.  A method is a function
  from the object it runs on to a pair: the result (`Except Violation α`) and the
  object as it is when the method returns or when the assertion fires.
* `unsigned int` counters are natural numbers below `UINT_MOD = 2^32`; `++` wraps.
* `Val<T>` and `ValMut<T>` hold their `ValContext<T>` by value; `ValRef<T>` and
  `ValMutRef<T>` hold a pointer to the context of an owner.  In `World` an owner
  lives at an index of `owners`, and a pointer is such an index.
* `ValRef<T>` declares a destructor and no copy operation, so its implicit copy
  constructor and copy assignment exist: they copy the pointer and call neither
  `addRef` nor `removeRef`.  `ValMutRef<T>` declares a move assignment, so it has no
  copy constructor, and its copy assignment is deleted.
-/

namespace check

/-- One constructor per assertion message of `cchecker.hpp`. -/
inductive Violation where
  /-- `assert(!this->moved && "moved")` in every `ValContext` method. -/
  | moved
  /-- "A reference was removed but there were no references". -/
  | noRefs
  /-- "A mut reference was removed but there were no mut references". -/
  | noMutRefs
  /-- "ValRefs lifetime exceeds owner's lifetime" (`~Val`, `Val::get`, `~ValMut`). -/
  | refsOutlive
  /-- "Cannot be used until all the mut refs go out of scope" (`ValMut::get`). -/
  | mutRefsAlive
  /-- "Tried to create a mut refs when immut ones exist" (`ValMutRef` constructor). -/
  | mutWhileImmut
  /-- "Tried to create multiple mut refs to the same object" (`ValMutRef` constructor). -/
  | multipleMut
  /-- "Mut and Immut refs of the same object detected" (`ValMutRef::get`, `set`). -/
  | mutAndImmut
  /-- `assert(this->context != nullptr && ...)` in the borrow handles. -/
  | nullContext
  deriving DecidableEq, Repr

deriving instance DecidableEq for Except

/-- Number of values of `unsigned int` (32 bits). -/
def UINT_MOD : Nat := 4294967296

/-- Result of a method run on an object of type `σ`: the value or the assertion
that fired, and the object at that point. -/
abbrev Checked (σ α : Type) : Type := Except Violation α × σ

/-- Sequencing of two method calls on the same object: the second runs only when
the first returned. -/
def andThen {σ α β : Type} (r : Checked σ α) (k : α → σ → Checked σ β) : Checked σ β :=
  match r with
  | (Except.ok a, s) => k a s
  | (Except.error e, s) => (Except.error e, s)

/-- `class ValContext<T>`: `refs`, `mutRefs`, `val`, `moved`. -/
structure ValContext (T : Type) where
  refs : Nat
  mutRefs : Nat
  val : T
  moved : Bool
  deriving DecidableEq, Repr

namespace ValContext

variable {T : Type}

/-- `ValContext(T in) : refs(0), mutRefs(0), val(in), moved(false)`. -/
def new (v : T) : ValContext T :=
  { refs := 0, mutRefs := 0, val := v, moved := false }

/-- `ValContext() : refs(0), mutRefs(0), val(T()), moved(false)`. -/
def newDefault [Inhabited T] : ValContext T :=
  { refs := 0, mutRefs := 0, val := default, moved := false }

/-- `operator=(const ValContext<T>& other)`: copies `moved`, `refs`, `mutRefs`, `val`;
all four members of `*this` are overwritten, so the result is the new `*this`. -/
def assign (other : ValContext T) : ValContext T :=
  { refs := other.refs, mutRefs := other.mutRefs, val := other.val, moved := other.moved }

/-- `operator=(ValContext<T>&& other)`: `*this = other; other.moved = true`.
Returns the new `*this` and the new `other`. -/
def moveAssign (other : ValContext T) : ValContext T × ValContext T :=
  (assign other, { other with moved := true })

/-- `addRef`: `assert(!moved); refs++`. -/
def addRef (c : ValContext T) : Checked (ValContext T) Unit :=
  if c.moved then (Except.error Violation.moved, c)
  else (Except.ok (), { c with refs := (c.refs + 1) % UINT_MOD })

/-- `addMutRef`: `assert(!moved); mutRefs++`. -/
def addMutRef (c : ValContext T) : Checked (ValContext T) Unit :=
  if c.moved then (Except.error Violation.moved, c)
  else (Except.ok (), { c with mutRefs := (c.mutRefs + 1) % UINT_MOD })

/-- `removeRef`: `assert(!moved); assert(refs > 0); refs--`. -/
def removeRef (c : ValContext T) : Checked (ValContext T) Unit :=
  if c.moved then (Except.error Violation.moved, c)
  else if c.refs = 0 then (Except.error Violation.noRefs, c)
  else (Except.ok (), { c with refs := c.refs - 1 })

/-- `removeMutRef`: `assert(!moved); assert(mutRefs > 0); mutRefs--`. -/
def removeMutRef (c : ValContext T) : Checked (ValContext T) Unit :=
  if c.moved then (Except.error Violation.moved, c)
  else if c.mutRefs = 0 then (Except.error Violation.noMutRefs, c)
  else (Except.ok (), { c with mutRefs := c.mutRefs - 1 })

/-- `getRefs`: `assert(!moved); return refs`. -/
def getRefs (c : ValContext T) : Checked (ValContext T) Nat :=
  if c.moved then (Except.error Violation.moved, c) else (Except.ok c.refs, c)

/-- `getMutRefs`: `assert(!moved); return mutRefs`. -/
def getMutRefs (c : ValContext T) : Checked (ValContext T) Nat :=
  if c.moved then (Except.error Violation.moved, c) else (Except.ok c.mutRefs, c)

/-- `getVal`: `assert(!moved); return val`. -/
def getVal (c : ValContext T) : Checked (ValContext T) T :=
  if c.moved then (Except.error Violation.moved, c) else (Except.ok c.val, c)

/-- `setVal`: `assert(!moved); this->val = val`. -/
def setVal (c : ValContext T) (v : T) : Checked (ValContext T) Unit :=
  if c.moved then (Except.error Violation.moved, c)
  else (Except.ok (), { c with val := v })

end ValContext

/-- `class Val<T>`: the read-only owner; its only member is `context`. -/
structure Val (T : Type) where
  context : ValContext T
  deriving DecidableEq, Repr

/-- `class ValMut<T>`: the mutable owner; its only member is `context`. -/
structure ValMut (T : Type) where
  context : ValContext T
  deriving DecidableEq, Repr

/-- A method of an owner that only works on `this->context`. -/
def onContext {T σ α : Type} (mk : ValContext T → σ) (r : Checked (ValContext T) α) :
    Checked σ α :=
  (r.1, mk r.2)

namespace Val

variable {T : Type}

/-- `Val(T in)`: `this->context = ValContext<T>(in)`; the member was default
constructed and is then move-assigned from the temporary. -/
def new (v : T) : Val T :=
  { context := (ValContext.moveAssign (ValContext.new v)).1 }

/-- `Val(Val &other)`: `this->context = ValContext(other.context.getVal())`.
Returns the new owner (when `getVal` passed) and `other` afterwards. -/
def copy (other : Val T) : Checked (Val T) (Val T) :=
  onContext Val.mk
    (andThen other.context.getVal fun v c =>
      (Except.ok { context := (ValContext.moveAssign (ValContext.new v)).1 }, c))

/-- `Val(Val &&other)`: `this->context = (ValContext<T>&&) other.context`.
Returns the new owner and `other` afterwards; there is no assertion on this path. -/
def move (other : Val T) : Val T × Val T :=
  ({ context := (ValContext.moveAssign other.context).1 },
   { context := (ValContext.moveAssign other.context).2 })

/-- `~Val`: `assert(this->context.getRefs() == 0)`. -/
def destroy (x : Val T) : Checked (Val T) Unit :=
  onContext Val.mk
    (andThen x.context.getRefs fun n c =>
      if n = 0 then (Except.ok (), c) else (Except.error Violation.refsOutlive, c))

/-- `Val::get`: `assert(this->context.getRefs() == 0); return this->context.getVal()`. -/
def get (x : Val T) : Checked (Val T) T :=
  onContext Val.mk
    (andThen x.context.getRefs fun n c =>
      if n = 0 then c.getVal else (Except.error Violation.refsOutlive, c))

/-- `Val::getRef`: `return ValRef<T>(this)`, whose constructor stores
`&from->context` and calls `addRef` on it. -/
def getRef (x : Val T) : Checked (Val T) Unit :=
  onContext Val.mk x.context.addRef

end Val

namespace ValMut

variable {T : Type}

/-- `ValMut(T in)`: `this->context = ValContext<T>(in)`. -/
def new (v : T) : ValMut T :=
  { context := (ValContext.moveAssign (ValContext.new v)).1 }

/-- `ValMut(ValMut<T> &other)`: `this->context = ValContext(other.context.getVal())`. -/
def copy (other : ValMut T) : Checked (ValMut T) (ValMut T) :=
  onContext ValMut.mk
    (andThen other.context.getVal fun v c =>
      (Except.ok { context := (ValContext.moveAssign (ValContext.new v)).1 }, c))

/-- `ValMut(ValMut &&other)`: `this->context = (ValContext<T>&&) other.context`. -/
def move (other : ValMut T) : ValMut T × ValMut T :=
  ({ context := (ValContext.moveAssign other.context).1 },
   { context := (ValContext.moveAssign other.context).2 })

/-- `ValMut(Val<T> in)` called with an lvalue `Val`: the by-value parameter `in` is
copy-constructed from the argument (`Val(Val&)`), the body runs
`this->context = in.context`, and `in` is destroyed (`~Val`) when the call ends.
Returns the new mutable owner and the argument afterwards. -/
def ofVal (arg : Val T) : Checked (Val T) (ValMut T) :=
  match Val.copy arg with
  | (Except.error e, arg1) => (Except.error e, arg1)
  | (Except.ok param, arg1) =>
    match Val.destroy param with
    | (Except.error e, _) => (Except.error e, arg1)
    | (Except.ok (), _) =>
      (Except.ok { context := ValContext.assign param.context }, arg1)

/-- `ValMut(Val<T> in)` called with an rvalue `Val`: the parameter `in` is
move-constructed from the argument (`Val(Val&&)`), then as in `ofVal`. -/
def ofValMove (arg : Val T) : Checked (Val T) (ValMut T) :=
  match Val.destroy (Val.move arg).1 with
  | (Except.error e, _) => (Except.error e, (Val.move arg).2)
  | (Except.ok (), _) =>
    (Except.ok { context := ValContext.assign (Val.move arg).1.context },
     (Val.move arg).2)

/-- `~ValMut`: `assert(this->context.getRefs() == 0)`. -/
def destroy (x : ValMut T) : Checked (ValMut T) Unit :=
  onContext ValMut.mk
    (andThen x.context.getRefs fun n c =>
      if n = 0 then (Except.ok (), c) else (Except.error Violation.refsOutlive, c))

/-- `ValMut::get`: `assert(this->context.getMutRefs() == 0); return this->context.getVal()`. -/
def get (x : ValMut T) : Checked (ValMut T) T :=
  onContext ValMut.mk
    (andThen x.context.getMutRefs fun n c =>
      if n = 0 then c.getVal else (Except.error Violation.mutRefsAlive, c))

/-- `ValMut::set`: `this->context.setVal(newVal)`. -/
def set (x : ValMut T) (newVal : T) : Checked (ValMut T) Unit :=
  onContext ValMut.mk (x.context.setVal newVal)

/-- `ValMut::getRef`: `return ValRef<T>(this)`, i.e. `addRef` on the context. -/
def getRef (x : ValMut T) : Checked (ValMut T) Unit :=
  onContext ValMut.mk x.context.addRef

/-- `ValMut::getMutRef`: `return ValMutRef<T>(this)`, whose constructor asserts
`getRefs() == 0`, then `getMutRefs() == 0`, then calls `addMutRef`. -/
def getMutRef (x : ValMut T) : Checked (ValMut T) Unit :=
  onContext ValMut.mk
    (andThen x.context.getRefs fun n c =>
      if n = 0 then
        andThen c.getMutRefs fun m c1 =>
          if m = 0 then c1.addMutRef else (Except.error Violation.multipleMut, c1)
      else (Except.error Violation.mutWhileImmut, c))

end ValMut

/-- `class ValRef<T>`: the shared borrow; its only member is the pointer `context`
(`none` is `nullptr`, `some i` points at the context of the owner at index `i`). -/
structure ValRef where
  context : Option Nat
  deriving DecidableEq, Repr

/-- `class ValMutRef<T>`: the exclusive borrow; its only member is the pointer `context`. -/
structure ValMutRef where
  context : Option Nat
  deriving DecidableEq, Repr

namespace ValRef

variable {T : Type}

/-- `~ValRef` after `assert(this->context != nullptr)`, on the context pointed at:
`this->context->removeRef()`. -/
def destroy (cell : ValContext T) : Checked (ValContext T) Unit :=
  cell.removeRef

/-- `ValRef::get` after `assert(this->context != nullptr)`, on the context pointed at:
`return this->context->getVal()`. -/
def get (cell : ValContext T) : Checked (ValContext T) T :=
  cell.getVal

end ValRef

namespace ValMutRef

variable {T : Type}

/-- `~ValMutRef` after `assert(this->context != nullptr)`, on the context pointed at:
`this->context->removeMutRef()`. -/
def destroy (cell : ValContext T) : Checked (ValContext T) Unit :=
  cell.removeMutRef

/-- `ValMutRef::get` after the null check, on the context pointed at:
`assert(this->context->getRefs() == 0); return this->context->getVal()`. -/
def get (cell : ValContext T) : Checked (ValContext T) T :=
  andThen cell.getRefs fun n c =>
    if n = 0 then c.getVal else (Except.error Violation.mutAndImmut, c)

/-- `ValMutRef::set` after the null check, on the context pointed at:
`assert(this->context->getRefs() == 0); this->context->setVal(in)`. -/
def set (cell : ValContext T) (v : T) : Checked (ValContext T) Unit :=
  andThen cell.getRefs fun n c =>
    if n = 0 then c.setVal v else (Except.error Violation.mutAndImmut, c)

end ValMutRef

/-! ## Programs: owners and borrow handles in one memory -/

/-- An owner object of either class. -/
inductive Owner (T : Type) where
  | val (x : Val T)
  | valMut (x : ValMut T)
  deriving DecidableEq, Repr

namespace Owner

variable {T : Type}

/-- The `context` member of an owner. -/
def context : Owner T → ValContext T
  | val x => x.context
  | valMut x => x.context

/-- The same owner with its `context` member replaced. -/
def withContext : Owner T → ValContext T → Owner T
  | val _, c => val { context := c }
  | valMut _, c => valMut { context := c }

end Owner

/-- An owner object and whether it is still in scope (its destructor has not run). -/
structure OwnerSlot (T : Type) where
  owner : Owner T
  alive : Bool
  deriving DecidableEq, Repr

/-- A borrow handle of either class. -/
inductive Handle where
  | ref (r : ValRef)
  | mutRef (r : ValMutRef)
  deriving DecidableEq, Repr

/-- The pointer held by a handle. -/
def Handle.context : Handle → Option Nat
  | Handle.ref r => r.context
  | Handle.mutRef r => r.context

/-- A borrow handle and whether it is still in scope (its destructor has not run). -/
structure BorrowSlot where
  handle : Handle
  alive : Bool
  deriving DecidableEq, Repr

/-- All objects of a program run: owners (an owner's address is its index) and
borrow handles. -/
structure World (T : Type) where
  owners : List (OwnerSlot T)
  borrows : List BorrowSlot
  deriving DecidableEq, Repr

/-- What a statement does: it completes, an assertion aborts the process, or the
statement is not a statement of a C++ program in this state (it names an object that
does not exist, is out of scope or has another class; a pointer dangles). -/
inductive Result (σ : Type) where
  | ok (s : σ)
  | abort (v : Violation)
  | undefined
  deriving DecidableEq, Repr

/-- The statement completed. -/
def Result.isOk {σ : Type} : Result σ → Bool
  | Result.ok _ => true
  | _ => false

/-- The statements of a client program. Owners and borrows are named by index. -/
inductive Op (T : Type) where
  /-- `check::Val<T> x = v;` -/
  | newVal (v : T)
  /-- `check::ValMut<T> y = v;` -/
  | newValMut (v : T)
  /-- Copy construction `Val(Val&)` or `ValMut(ValMut&)` from owner `i`. -/
  | copy (i : Nat)
  /-- `check::ValMut<T> y = x;` with `x` the `Val` at `i` (an lvalue). -/
  | convert (i : Nat)
  /-- `check::ValMut<T> y = std::move(x);` with `x` the `Val` at `i`. -/
  | convertMove (i : Nat)
  /-- Move construction `Val(Val&&)` or `ValMut(ValMut&&)` from owner `i`. -/
  | relocate (i : Nat)
  /-- `x.get()` on owner `i`. -/
  | get (i : Nat)
  /-- `y.set(v)` on the `ValMut` at `i`. -/
  | set (i : Nat) (v : T)
  /-- `x.getRef()` on owner `i`; the new `ValRef` is kept. -/
  | getRef (i : Nat)
  /-- `y.getMutRef()` on the `ValMut` at `i`; the new `ValMutRef` is kept. -/
  | getMutRef (i : Nat)
  /-- Owner `i` goes out of scope: `~Val` or `~ValMut`. -/
  | destroy (i : Nat)
  /-- Borrow `b` goes out of scope: `~ValRef` or `~ValMutRef`. -/
  | expire (b : Nat)
  /-- `a.get()` on borrow `b`. -/
  | borrowGet (b : Nat)
  /-- `d.set(v)` on the `ValMutRef` at `b`. -/
  | borrowSet (b : Nat) (v : T)
  /-- `check::ValRef<T> a2 = a;` with `a` the `ValRef` at `b` (also `a` passed by value):
  the implicit copy constructor copies the pointer, `addRef` is not called; the new
  `ValRef` is kept and its destructor will run like that of any other `ValRef`. -/
  | borrowCopy (b : Nat)
  /-- `a2 = a;` with `a2` the `ValRef` at `d` and `a` the `ValRef` at `b`: the implicit
  copy assignment overwrites the pointer of `a2`; neither `removeRef` on the context it
  pointed at nor `addRef` on the new one is called. -/
  | borrowAssign (d b : Nat)
  deriving DecidableEq, Repr

namespace World

variable {T : Type}

/-- The program before its first statement. -/
def empty : World T :=
  { owners := [], borrows := [] }

/-- The owner at index `i`, when it exists and is in scope. -/
def owner (w : World T) (i : Nat) : Option (Owner T) :=
  match w.owners[i]? with
  | some s => if s.alive then some s.owner else none
  | none => none

/-- The borrow handle at index `b`, when it exists and is in scope. -/
def borrow (w : World T) (b : Nat) : Option Handle :=
  match w.borrows[b]? with
  | some s => if s.alive then some s.handle else none
  | none => none

/-- Store the owner object at index `i`. -/
def setOwner (w : World T) (i : Nat) (o : Owner T) : World T :=
  { w with owners := w.owners.set i { owner := o, alive := true } }

/-- A new owner object, at the next free index. -/
def pushOwner (w : World T) (o : Owner T) : World T :=
  { w with owners := w.owners ++ [{ owner := o, alive := true }] }

/-- A new borrow handle, at the next free index. -/
def pushBorrow (w : World T) (h : Handle) : World T :=
  { w with borrows := w.borrows ++ [{ handle := h, alive := true }] }

/-- Owner `i` has been destroyed. -/
def endOwner (w : World T) (i : Nat) (o : Owner T) : World T :=
  { w with owners := w.owners.set i { owner := o, alive := false } }

/-- Store the borrow handle at index `b`. -/
def setBorrow (w : World T) (b : Nat) (h : Handle) : World T :=
  { w with borrows := w.borrows.set b { handle := h, alive := true } }

/-- Borrow `b` has been destroyed. -/
def endBorrow (w : World T) (b : Nat) (h : Handle) : World T :=
  { w with borrows := w.borrows.set b { handle := h, alive := false } }

/-- Completion of a statement from the outcome of the method it called. -/
def finish {σ α : Type} (r : Checked σ α) (k : α → σ → World T) : Result (World T) :=
  match r with
  | (Except.ok a, s) => Result.ok (k a s)
  | (Except.error e, _) => Result.abort e

/-- A method of a borrow handle: `assert(this->context != nullptr)`, then the body
runs on the context pointed at. -/
def through {α : Type} (w : World T) (p : Option Nat)
    (body : ValContext T → Checked (ValContext T) α) (k : World T → World T) :
    Result (World T) :=
  match p with
  | none => Result.abort Violation.nullContext
  | some i =>
    match w.owner i with
    | none => Result.undefined
    | some o => finish (body o.context) fun _ c => k (w.setOwner i (o.withContext c))

/-- One statement. -/
def step (w : World T) : Op T → Result (World T)
  | Op.newVal v => Result.ok (w.pushOwner (Owner.val (Val.new v)))
  | Op.newValMut v => Result.ok (w.pushOwner (Owner.valMut (ValMut.new v)))
  | Op.copy i =>
    match w.owner i with
    | some (Owner.val x) =>
      finish (Val.copy x) fun y x1 => (w.setOwner i (Owner.val x1)).pushOwner (Owner.val y)
    | some (Owner.valMut x) =>
      finish (ValMut.copy x) fun y x1 =>
        (w.setOwner i (Owner.valMut x1)).pushOwner (Owner.valMut y)
    | none => Result.undefined
  | Op.convert i =>
    match w.owner i with
    | some (Owner.val x) =>
      finish (ValMut.ofVal x) fun y x1 =>
        (w.setOwner i (Owner.val x1)).pushOwner (Owner.valMut y)
    | _ => Result.undefined
  | Op.convertMove i =>
    match w.owner i with
    | some (Owner.val x) =>
      finish (ValMut.ofValMove x) fun y x1 =>
        (w.setOwner i (Owner.val x1)).pushOwner (Owner.valMut y)
    | _ => Result.undefined
  | Op.relocate i =>
    match w.owner i with
    | some (Owner.val x) =>
      Result.ok ((w.setOwner i (Owner.val (Val.move x).2)).pushOwner (Owner.val (Val.move x).1))
    | some (Owner.valMut x) =>
      Result.ok
        ((w.setOwner i (Owner.valMut (ValMut.move x).2)).pushOwner (Owner.valMut (ValMut.move x).1))
    | none => Result.undefined
  | Op.get i =>
    match w.owner i with
    | some (Owner.val x) => finish (Val.get x) fun _ x1 => w.setOwner i (Owner.val x1)
    | some (Owner.valMut x) => finish (ValMut.get x) fun _ x1 => w.setOwner i (Owner.valMut x1)
    | none => Result.undefined
  | Op.set i v =>
    match w.owner i with
    | some (Owner.valMut x) =>
      finish (ValMut.set x v) fun _ x1 => w.setOwner i (Owner.valMut x1)
    | _ => Result.undefined
  | Op.getRef i =>
    match w.owner i with
    | some (Owner.val x) =>
      finish (Val.getRef x) fun _ x1 =>
        (w.setOwner i (Owner.val x1)).pushBorrow (Handle.ref { context := some i })
    | some (Owner.valMut x) =>
      finish (ValMut.getRef x) fun _ x1 =>
        (w.setOwner i (Owner.valMut x1)).pushBorrow (Handle.ref { context := some i })
    | none => Result.undefined
  | Op.getMutRef i =>
    match w.owner i with
    | some (Owner.valMut x) =>
      finish (ValMut.getMutRef x) fun _ x1 =>
        (w.setOwner i (Owner.valMut x1)).pushBorrow (Handle.mutRef { context := some i })
    | _ => Result.undefined
  | Op.destroy i =>
    match w.owner i with
    | some (Owner.val x) => finish (Val.destroy x) fun _ x1 => w.endOwner i (Owner.val x1)
    | some (Owner.valMut x) =>
      finish (ValMut.destroy x) fun _ x1 => w.endOwner i (Owner.valMut x1)
    | none => Result.undefined
  | Op.expire b =>
    match w.borrow b with
    | some (Handle.ref r) =>
      through w r.context ValRef.destroy fun w1 => w1.endBorrow b (Handle.ref r)
    | some (Handle.mutRef r) =>
      through w r.context ValMutRef.destroy fun w1 => w1.endBorrow b (Handle.mutRef r)
    | none => Result.undefined
  | Op.borrowGet b =>
    match w.borrow b with
    | some (Handle.ref r) => through w r.context ValRef.get fun w1 => w1
    | some (Handle.mutRef r) => through w r.context ValMutRef.get fun w1 => w1
    | none => Result.undefined
  | Op.borrowSet b v =>
    match w.borrow b with
    | some (Handle.mutRef r) => through w r.context (fun c => ValMutRef.set c v) fun w1 => w1
    | _ => Result.undefined
  | Op.borrowCopy b =>
    match w.borrow b with
    | some (Handle.ref r) => Result.ok (w.pushBorrow (Handle.ref { context := r.context }))
    | _ => Result.undefined
  | Op.borrowAssign d b =>
    match w.borrow d, w.borrow b with
    | some (Handle.ref _), some (Handle.ref r) =>
      Result.ok (w.setBorrow d (Handle.ref { context := r.context }))
    | _, _ => Result.undefined

/-- What a method of a borrow handle returns when it returns: the body runs on the
context pointed at, as in `through`. -/
def deref {α : Type} (w : World T) (p : Option Nat)
    (body : ValContext T → Checked (ValContext T) α) : Option α :=
  match p with
  | none => none
  | some i =>
    match w.owner i with
    | none => none
    | some o =>
      match body o.context with
      | (Except.ok a, _) => some a
      | (Except.error _, _) => none

/-- The value that a reading statement returns when it completes: `x.get()` on an owner,
`a.get()` on a borrow. -/
def valueRead (w : World T) : Op T → Option T
  | Op.get i =>
    match w.owner i with
    | some (Owner.val x) =>
      match Val.get x with
      | (Except.ok a, _) => some a
      | (Except.error _, _) => none
    | some (Owner.valMut x) =>
      match ValMut.get x with
      | (Except.ok a, _) => some a
      | (Except.error _, _) => none
    | none => none
  | Op.borrowGet b =>
    match w.borrow b with
    | some (Handle.ref r) => deref w r.context ValRef.get
    | some (Handle.mutRef r) => deref w r.context ValMutRef.get
    | none => none
  | _ => none

/-- A sequence of statements; it stops at the first one that does not complete. -/
def run (w : World T) : List (Op T) → Result (World T)
  | [] => Result.ok w
  | op :: ops =>
    match step w op with
    | Result.ok w1 => run w1 ops
    | Result.abort v => Result.abort v
    | Result.undefined => Result.undefined

/-- Number of shared borrows in scope that point at owner `i`. -/
def liveRefs (w : World T) (i : Nat) : Nat :=
  (w.borrows.filter fun s => s.alive && s.handle == Handle.ref { context := some i }).length

/-- Number of exclusive borrows in scope that point at owner `i`. -/
def liveMutRefs (w : World T) (i : Nat) : Nat :=
  (w.borrows.filter fun s => s.alive && s.handle == Handle.mutRef { context := some i }).length

end World

/-- The statements of `test_all` in `tests/all_test.cpp` (the `assert`s on the
values read are the `get` statements). -/
def test_all : List (Op Int) :=
  [Op.newVal 1, Op.newValMut 2, Op.get 0, Op.get 1, Op.set 1 3, Op.get 1,
   Op.convert 0, Op.get 0, Op.get 2,
   Op.copy 1, Op.get 1, Op.get 3,
   Op.getRef 0, Op.getRef 0, Op.borrowGet 0, Op.borrowGet 1,
   Op.getRef 1, Op.getRef 1, Op.borrowGet 2, Op.borrowGet 3,
   Op.newValMut 10, Op.getMutRef 4, Op.borrowGet 4]

/-- The destructors that run when `test_all` returns, in reverse order of declaration. -/
def test_all_exit : List (Op Int) :=
  [Op.expire 4, Op.destroy 4, Op.expire 3, Op.expire 2, Op.expire 1, Op.expire 0,
   Op.destroy 3, Op.destroy 2, Op.destroy 1, Op.destroy 0]

/-! ## Predicates on programs -/

section Predicates

variable {T : Type}

/-- The statement constructs an owner from a value. -/
def Op.isNew : Op T → Bool
  | Op.newVal _ => true
  | Op.newValMut _ => true
  | _ => false

/-- The statement creates a borrow from owner `i` (`getRef`, `getMutRef`) or lets a
borrow go out of scope. -/
def Op.isBorrowOpOn (i : Nat) : Op T → Bool
  | Op.getRef j => j == i
  | Op.getMutRef j => j == i
  | Op.expire _ => true
  | _ => false

/-- The statement creates a shared borrow from an owner that has an exclusive borrow
counted (`x.getRef()` while `mutRefs != 0`). -/
def World.sharesUnderExclusive (w : World T) : Op T → Bool
  | Op.getRef i =>
    match w.owner i with
    | some o => o.context.mutRefs != 0
    | none => false
  | _ => false

/-- No statement of the sequence, run from `w`, creates a shared borrow from an owner
that has an exclusive borrow counted. -/
def World.disciplined : World T → List (Op T) → Bool
  | _, [] => true
  | w, op :: ops =>
    !(w.sharesUnderExclusive op) &&
      match World.step w op with
      | Result.ok w1 => World.disciplined w1 ops
      | _ => true

/-- The statement move-constructs an owner from another one. -/
def Op.relocates : Op T → Bool
  | Op.relocate _ => true
  | Op.convertMove _ => true
  | _ => false

/-- A relation `R` between the context of every owner and the numbers of shared and
exclusive borrows in scope that point at it; and no borrow points past the last owner. -/
def World.Related (R : ValContext T → Nat → Nat → Prop) (w : World T) : Prop :=
  ∀ i, (∀ s, w.owners[i]? = some s →
          R s.owner.context (w.liveRefs i) (w.liveMutRefs i)) ∧
       (w.owners.length ≤ i → w.liveRefs i = 0 ∧ w.liveMutRefs i = 0)

/-- In every owner `mutRefs` is at least the number of exclusive borrows in scope that
point at it. -/
def World.MutCovered (w : World T) : Prop :=
  w.Related fun c _ m => m ≤ c.mutRefs

/-- What a completed statement did to the objects of the program. -/
inductive Shape (w : World T) (op : Op T) : World T → Prop where
  | fresh (o : Owner T) (v : T) (hop : op = Op.newVal v ∨ op = Op.newValMut v)
      (ho : o.context = ValContext.new v) : Shape w op (w.pushOwner o)
  | copied (i : Nat) (o n : Owner T) (hop : op = Op.copy i ∨ op = Op.convert i)
      (hi : w.owner i = some o) (hn : n.context = ValContext.new o.context.val) :
      Shape w op (w.pushOwner n)
  | relocated (i : Nat) (o n : Owner T) (hop : op = Op.relocate i ∨ op = Op.convertMove i)
      (hi : w.owner i = some o) (hn : n.context = o.context) :
      Shape w op ((w.setOwner i (o.withContext { o.context with moved := true })).pushOwner n)
  | read (hop : (∃ i, op = Op.get i) ∨ (∃ b, op = Op.borrowGet b)) : Shape w op w
  | wrote (i : Nat) (o : Owner T) (v : T)
      (hop : (∃ j, op = Op.set j v) ∨ (∃ b, op = Op.borrowSet b v))
      (hi : w.owner i = some o) :
      Shape w op (w.setOwner i (o.withContext { o.context with val := v }))
  | destroyed (i : Nat) (o : Owner T) (hop : op = Op.destroy i) (hi : w.owner i = some o) :
      Shape w op (w.endOwner i o)
  | shared (i : Nat) (o : Owner T) (hop : op = Op.getRef i) (hi : w.owner i = some o) :
      Shape w op
        ((w.setOwner i
            (o.withContext { o.context with refs := (o.context.refs + 1) % UINT_MOD })).pushBorrow
          (Handle.ref { context := some i }))
  | exclusive (i : Nat) (o : Owner T) (hop : op = Op.getMutRef i) (hi : w.owner i = some o)
      (h0 : o.context.refs = 0) (h1 : o.context.mutRefs = 0) :
      Shape w op
        ((w.setOwner i (o.withContext { o.context with mutRefs := 1 })).pushBorrow
          (Handle.mutRef { context := some i }))
  | expiredRef (b i : Nat) (o : Owner T) (hop : op = Op.expire b)
      (hb : w.borrow b = some (Handle.ref { context := some i }))
      (hi : w.owner i = some o) (hr : o.context.refs ≠ 0) :
      Shape w op
        ((w.setOwner i (o.withContext { o.context with refs := o.context.refs - 1 })).endBorrow b
          (Handle.ref { context := some i }))
  | expiredMutRef (b i : Nat) (o : Owner T) (hop : op = Op.expire b)
      (hb : w.borrow b = some (Handle.mutRef { context := some i }))
      (hi : w.owner i = some o) (hr : o.context.mutRefs ≠ 0) :
      Shape w op
        ((w.setOwner i
            (o.withContext { o.context with mutRefs := o.context.mutRefs - 1 })).endBorrow b
          (Handle.mutRef { context := some i }))
  | copiedRef (b : Nat) (p : Option Nat) (hop : op = Op.borrowCopy b)
      (hb : w.borrow b = some (Handle.ref { context := p })) :
      Shape w op (w.pushBorrow (Handle.ref { context := p }))
  | assignedRef (d b : Nat) (q p : Option Nat) (hop : op = Op.borrowAssign d b)
      (hd : w.borrow d = some (Handle.ref { context := q }))
      (hb : w.borrow b = some (Handle.ref { context := p })) :
      Shape w op (w.setBorrow d (Handle.ref { context := p }))

/-- A property of contexts that every method keeps; `G` is what `addRef` needs. -/
structure Kept (P G : ValContext T → Prop) : Prop where
  new : ∀ v, P (ValContext.new v)
  moved : ∀ c, P c → P { c with moved := true }
  setVal : ∀ c v, P c → P { c with val := v }
  addRef : ∀ c, P c → G c → P { c with refs := (c.refs + 1) % UINT_MOD }
  removeRef : ∀ c, P c → c.refs ≠ 0 → P { c with refs := c.refs - 1 }
  addMutRef : ∀ c, P c → c.refs = 0 → c.mutRefs = 0 → P { c with mutRefs := 1 }
  removeMutRef : ∀ c, P c → c.mutRefs ≠ 0 → P { c with mutRefs := c.mutRefs - 1 }

end Predicates

/-! ## Theorems -/

/-! ### Lemmas on methods and on single statements -/

section Lemmas

variable {T : Type}

theorem finish_eq_ok {σ α : Type} (r : Checked σ α) (k : α → σ → World T) (w1 : World T) :
    World.finish r k = Result.ok w1 ↔ ∃ a s, r = (Except.ok a, s) ∧ w1 = k a s := by
  obtain ⟨e, s⟩ := r
  cases e with
  | error e => simp [World.finish]
  | ok a =>
    simp only [World.finish, Result.ok.injEq, Prod.mk.injEq, Except.ok.injEq]
    constructor
    · intro h; exact ⟨a, s, ⟨rfl, rfl⟩, h.symm⟩
    · rintro ⟨a1, s1, ⟨rfl, rfl⟩, h⟩; exact h.symm

theorem setOwner_self {w : World T} {i : Nat} {o : Owner T} (hi : w.owner i = some o) :
    w.setOwner i o = w := by
  unfold World.owner at hi
  cases hs : w.owners[i]? with
  | none => simp [hs] at hi
  | some s =>
    obtain ⟨so, sa⟩ := s
    simp only [hs] at hi
    cases sa <;> simp at hi
    subst hi
    obtain ⟨os, bs⟩ := w
    simp only [World.setOwner, World.mk.injEq, and_true]
    simp only at hs
    apply List.ext_getElem?
    intro j
    by_cases hj : i = j
    · subst hj
      rw [hs]
      have hlt : i < os.length := by
        rcases Nat.lt_or_ge i os.length with h | h
        · exact h
        · rw [List.getElem?_eq_none h] at hs; cases hs
      simp [List.getElem?_set, hlt]
    · simp [List.getElem?_set, hj]

theorem through_eq_ok {α : Type} (w : World T) (p : Option Nat)
    (body : ValContext T → Checked (ValContext T) α) (k : World T → World T) (w1 : World T) :
    World.through w p body k = Result.ok w1 ↔
      ∃ i o a c, p = some i ∧ w.owner i = some o ∧ body o.context = (Except.ok a, c) ∧
        w1 = k (w.setOwner i (o.withContext c)) := by
  cases p with
  | none => simp [World.through]
  | some i =>
    cases hi : w.owner i with
    | none => simp [World.through, hi]
    | some o =>
      simp only [World.through, hi, finish_eq_ok]
      constructor
      · rintro ⟨a, c, h1, h2⟩
        exact ⟨i, o, a, c, rfl, hi, h1, h2⟩
      · rintro ⟨j, o1, a, c, hj, ho, h1, h2⟩
        cases hj
        rw [hi] at ho
        cases ho
        exact ⟨a, c, h1, h2⟩

theorem withContext_self (o : Owner T) : o.withContext o.context = o := by
  cases o <;> rfl

theorem context_withContext (o : Owner T) (c : ValContext T) : (o.withContext c).context = c := by
  cases o <;> rfl

theorem val_get_snd (x : Val T) : (Val.get x).2 = x := by
  obtain ⟨⟨r, m, v, mv⟩⟩ := x
  cases mv <;> by_cases hr : r = 0 <;>
    simp [Val.get, onContext, andThen, ValContext.getRefs, ValContext.getVal, hr]

theorem val_destroy_snd (x : Val T) : (Val.destroy x).2 = x := by
  obtain ⟨⟨r, m, v, mv⟩⟩ := x
  cases mv <;> by_cases hr : r = 0 <;>
    simp [Val.destroy, onContext, andThen, ValContext.getRefs, hr]

theorem valMut_get_snd (x : ValMut T) : (ValMut.get x).2 = x := by
  obtain ⟨⟨r, m, v, mv⟩⟩ := x
  cases mv <;> by_cases hr : m = 0 <;>
    simp [ValMut.get, onContext, andThen, ValContext.getMutRefs, ValContext.getVal, hr]

theorem valMut_destroy_snd (x : ValMut T) : (ValMut.destroy x).2 = x := by
  obtain ⟨⟨r, m, v, mv⟩⟩ := x
  cases mv <;> by_cases hr : r = 0 <;>
    simp [ValMut.destroy, onContext, andThen, ValContext.getRefs, hr]

theorem val_copy_ok {x y x1 : Val T} (h : Val.copy x = (Except.ok y, x1)) :
    x1 = x ∧ y.context = ValContext.new x.context.val := by
  obtain ⟨⟨r, m, v, mv⟩⟩ := x
  cases mv <;>
    simp [Val.copy, onContext, andThen, ValContext.getVal, ValContext.moveAssign,
      ValContext.assign, ValContext.new] at h ⊢
  obtain ⟨rfl, rfl⟩ := h
  simp

theorem valMut_copy_ok {x y x1 : ValMut T} (h : ValMut.copy x = (Except.ok y, x1)) :
    x1 = x ∧ y.context = ValContext.new x.context.val := by
  obtain ⟨⟨r, m, v, mv⟩⟩ := x
  cases mv <;>
    simp [ValMut.copy, onContext, andThen, ValContext.getVal, ValContext.moveAssign,
      ValContext.assign, ValContext.new] at h ⊢
  obtain ⟨rfl, rfl⟩ := h
  simp

theorem valMut_ofVal_ok {x x1 : Val T} {y : ValMut T}
    (h : ValMut.ofVal x = (Except.ok y, x1)) :
    x1 = x ∧ y.context = ValContext.new x.context.val := by
  obtain ⟨⟨r, m, v, mv⟩⟩ := x
  cases mv <;>
    simp [ValMut.ofVal, Val.copy, Val.destroy, onContext, andThen, ValContext.getVal,
      ValContext.getRefs, ValContext.moveAssign, ValContext.assign, ValContext.new] at h ⊢
  obtain ⟨rfl, rfl⟩ := h
  simp

theorem valMut_ofValMove_ok {x x1 : Val T} {y : ValMut T}
    (h : ValMut.ofValMove x = (Except.ok y, x1)) :
    x1 = { context := { x.context with moved := true } } ∧ y.context = x.context := by
  obtain ⟨⟨r, m, v, mv⟩⟩ := x
  cases mv <;> by_cases hr : r = 0 <;>
    simp [ValMut.ofValMove, Val.move, Val.destroy, onContext, andThen,
      ValContext.getRefs, ValContext.moveAssign, ValContext.assign, hr] at h ⊢
  obtain ⟨rfl, rfl⟩ := h
  simp

theorem valMut_set_ok {x x1 : ValMut T} {v : T} {a : Unit}
    (h : ValMut.set x v = (Except.ok a, x1)) :
    x1 = { context := { x.context with val := v } } := by
  obtain ⟨⟨r, m, v0, mv⟩⟩ := x
  cases mv <;> simp [ValMut.set, onContext, ValContext.setVal] at h ⊢
  exact h.symm

theorem val_getRef_ok {x x1 : Val T} {a : Unit} (h : Val.getRef x = (Except.ok a, x1)) :
    x1 = { context := { x.context with refs := (x.context.refs + 1) % UINT_MOD } } := by
  obtain ⟨⟨r, m, v0, mv⟩⟩ := x
  cases mv <;> simp [Val.getRef, onContext, ValContext.addRef] at h ⊢
  exact h.symm

theorem valMut_getRef_ok {x x1 : ValMut T} {a : Unit}
    (h : ValMut.getRef x = (Except.ok a, x1)) :
    x1 = { context := { x.context with refs := (x.context.refs + 1) % UINT_MOD } } := by
  obtain ⟨⟨r, m, v0, mv⟩⟩ := x
  cases mv <;> simp [ValMut.getRef, onContext, ValContext.addRef] at h ⊢
  exact h.symm

theorem valMut_getMutRef_ok {x x1 : ValMut T} {a : Unit}
    (h : ValMut.getMutRef x = (Except.ok a, x1)) :
    x.context.refs = 0 ∧ x.context.mutRefs = 0 ∧
      x1 = { context := { x.context with mutRefs := 1 } } := by
  obtain ⟨⟨r, m, v0, mv⟩⟩ := x
  cases mv <;> by_cases hr : r = 0 <;> by_cases hm : m = 0 <;>
    simp [ValMut.getMutRef, onContext, andThen, ValContext.getRefs, ValContext.getMutRefs,
      ValContext.addMutRef, UINT_MOD, hr, hm] at h ⊢
  exact h.symm

theorem removeRef_ok {c c1 : ValContext T} {a : Unit} (h : c.removeRef = (Except.ok a, c1)) :
    c.refs ≠ 0 ∧ c1 = { c with refs := c.refs - 1 } := by
  obtain ⟨r, m, v0, mv⟩ := c
  cases mv <;> by_cases hr : r = 0 <;> simp [ValContext.removeRef, hr] at h ⊢
  exact h.symm

theorem removeMutRef_ok {c c1 : ValContext T} {a : Unit}
    (h : c.removeMutRef = (Except.ok a, c1)) :
    c.mutRefs ≠ 0 ∧ c1 = { c with mutRefs := c.mutRefs - 1 } := by
  obtain ⟨r, m, v0, mv⟩ := c
  cases mv <;> by_cases hr : m = 0 <;> simp [ValContext.removeMutRef, hr] at h ⊢
  exact h.symm

theorem valRef_get_snd (c : ValContext T) : (ValRef.get c).2 = c := by
  obtain ⟨r, m, v0, mv⟩ := c
  cases mv <;> simp [ValRef.get, ValContext.getVal]

theorem valMutRef_get_snd (c : ValContext T) : (ValMutRef.get c).2 = c := by
  obtain ⟨r, m, v0, mv⟩ := c
  cases mv <;> by_cases hr : r = 0 <;>
    simp [ValMutRef.get, andThen, ValContext.getRefs, ValContext.getVal, hr]

theorem valMutRef_set_ok {c c1 : ValContext T} {v : T} {a : Unit}
    (h : ValMutRef.set c v = (Except.ok a, c1)) : c1 = { c with val := v } := by
  obtain ⟨r, m, v0, mv⟩ := c
  cases mv <;> by_cases hr : r = 0 <;>
    simp [ValMutRef.set, andThen, ValContext.getRefs, ValContext.setVal, hr] at h ⊢
  exact h.symm

theorem step_shape {w w1 : World T} {op : Op T} (h : World.step w op = Result.ok w1) :
    Shape w op w1 := by
  cases op with
  | newVal v =>
    simp only [World.step, Result.ok.injEq] at h
    subst h
    exact Shape.fresh _ v (Or.inl rfl) rfl
  | newValMut v =>
    simp only [World.step, Result.ok.injEq] at h
    subst h
    exact Shape.fresh _ v (Or.inr rfl) rfl
  | copy i =>
    simp only [World.step] at h
    cases hi : w.owner i with
    | none => simp [hi] at h
    | some o =>
      cases o with
      | val x =>
        simp only [hi, finish_eq_ok] at h
        obtain ⟨y, x1, hx, rfl⟩ := h
        obtain ⟨rfl, hy⟩ := val_copy_ok hx
        rw [setOwner_self hi]
        exact Shape.copied i _ _ (Or.inl rfl) hi hy
      | valMut x =>
        simp only [hi, finish_eq_ok] at h
        obtain ⟨y, x1, hx, rfl⟩ := h
        obtain ⟨rfl, hy⟩ := valMut_copy_ok hx
        rw [setOwner_self hi]
        exact Shape.copied i _ _ (Or.inl rfl) hi hy
  | convert i =>
    simp only [World.step] at h
    cases hi : w.owner i with
    | none => simp [hi] at h
    | some o =>
      cases o with
      | val x =>
        simp only [hi, finish_eq_ok] at h
        obtain ⟨y, x1, hx, rfl⟩ := h
        obtain ⟨rfl, hy⟩ := valMut_ofVal_ok hx
        rw [setOwner_self hi]
        exact Shape.copied i _ _ (Or.inr rfl) hi hy
      | valMut x => simp [hi] at h
  | convertMove i =>
    simp only [World.step] at h
    cases hi : w.owner i with
    | none => simp [hi] at h
    | some o =>
      cases o with
      | val x =>
        simp only [hi, finish_eq_ok] at h
        obtain ⟨y, x1, hx, rfl⟩ := h
        obtain ⟨rfl, hy⟩ := valMut_ofValMove_ok hx
        exact Shape.relocated i (Owner.val x) (Owner.valMut y) (Or.inr rfl) hi hy
      | valMut x => simp [hi] at h
  | relocate i =>
    simp only [World.step] at h
    cases hi : w.owner i with
    | none => simp [hi] at h
    | some o =>
      cases o with
      | val x =>
        simp only [hi, Result.ok.injEq] at h
        subst h
        exact Shape.relocated i (Owner.val x) (Owner.val (Val.move x).1) (Or.inl rfl) hi rfl
      | valMut x =>
        simp only [hi, Result.ok.injEq] at h
        subst h
        exact Shape.relocated i (Owner.valMut x) (Owner.valMut (ValMut.move x).1) (Or.inl rfl)
          hi rfl
  | get i =>
    simp only [World.step] at h
    cases hi : w.owner i with
    | none => simp [hi] at h
    | some o =>
      cases o with
      | val x =>
        simp only [hi, finish_eq_ok] at h
        obtain ⟨a, x1, hx, rfl⟩ := h
        have hx1 : x1 = x := by rw [← val_get_snd x, hx]
        subst hx1
        rw [setOwner_self hi]
        exact Shape.read (Or.inl ⟨i, rfl⟩)
      | valMut x =>
        simp only [hi, finish_eq_ok] at h
        obtain ⟨a, x1, hx, rfl⟩ := h
        have hx1 : x1 = x := by rw [← valMut_get_snd x, hx]
        subst hx1
        rw [setOwner_self hi]
        exact Shape.read (Or.inl ⟨i, rfl⟩)
  | set i v =>
    simp only [World.step] at h
    cases hi : w.owner i with
    | none => simp [hi] at h
    | some o =>
      cases o with
      | val x => simp [hi] at h
      | valMut x =>
        simp only [hi, finish_eq_ok] at h
        obtain ⟨a, x1, hx, rfl⟩ := h
        rw [valMut_set_ok hx]
        exact Shape.wrote i (Owner.valMut x) v (Or.inl ⟨i, rfl⟩) hi
  | getRef i =>
    simp only [World.step] at h
    cases hi : w.owner i with
    | none => simp [hi] at h
    | some o =>
      cases o with
      | val x =>
        simp only [hi, finish_eq_ok] at h
        obtain ⟨a, x1, hx, rfl⟩ := h
        rw [val_getRef_ok hx]
        exact Shape.shared i (Owner.val x) rfl hi
      | valMut x =>
        simp only [hi, finish_eq_ok] at h
        obtain ⟨a, x1, hx, rfl⟩ := h
        rw [valMut_getRef_ok hx]
        exact Shape.shared i (Owner.valMut x) rfl hi
  | getMutRef i =>
    simp only [World.step] at h
    cases hi : w.owner i with
    | none => simp [hi] at h
    | some o =>
      cases o with
      | val x => simp [hi] at h
      | valMut x =>
        simp only [hi, finish_eq_ok] at h
        obtain ⟨a, x1, hx, rfl⟩ := h
        obtain ⟨h0, h1, rfl⟩ := valMut_getMutRef_ok hx
        exact Shape.exclusive i (Owner.valMut x) rfl hi h0 h1
  | destroy i =>
    simp only [World.step] at h
    cases hi : w.owner i with
    | none => simp [hi] at h
    | some o =>
      cases o with
      | val x =>
        simp only [hi, finish_eq_ok] at h
        obtain ⟨a, x1, hx, rfl⟩ := h
        have hx1 : x1 = x := by rw [← val_destroy_snd x, hx]
        subst hx1
        exact Shape.destroyed i _ rfl hi
      | valMut x =>
        simp only [hi, finish_eq_ok] at h
        obtain ⟨a, x1, hx, rfl⟩ := h
        have hx1 : x1 = x := by rw [← valMut_destroy_snd x, hx]
        subst hx1
        exact Shape.destroyed i _ rfl hi
  | expire b =>
    simp only [World.step] at h
    cases hb : w.borrow b with
    | none => simp [hb] at h
    | some hd =>
      cases hd with
      | ref r =>
        simp only [hb, through_eq_ok] at h
        obtain ⟨i, o, a, c, hp, hi, hbody, rfl⟩ := h
        obtain ⟨hr, rfl⟩ := removeRef_ok hbody
        obtain ⟨p⟩ := r
        simp only at hp
        subst hp
        exact Shape.expiredRef b i o rfl hb hi hr
      | mutRef r =>
        simp only [hb, through_eq_ok] at h
        obtain ⟨i, o, a, c, hp, hi, hbody, rfl⟩ := h
        obtain ⟨hr, rfl⟩ := removeMutRef_ok hbody
        obtain ⟨p⟩ := r
        simp only at hp
        subst hp
        exact Shape.expiredMutRef b i o rfl hb hi hr
  | borrowGet b =>
    simp only [World.step] at h
    cases hb : w.borrow b with
    | none => simp [hb] at h
    | some hd =>
      cases hd with
      | ref r =>
        simp only [hb, through_eq_ok] at h
        obtain ⟨i, o, a, c, hp, hi, hbody, rfl⟩ := h
        have hc : c = o.context := by rw [← valRef_get_snd o.context, hbody]
        subst hc
        rw [withContext_self, setOwner_self hi]
        exact Shape.read (Or.inr ⟨b, rfl⟩)
      | mutRef r =>
        simp only [hb, through_eq_ok] at h
        obtain ⟨i, o, a, c, hp, hi, hbody, rfl⟩ := h
        have hc : c = o.context := by rw [← valMutRef_get_snd o.context, hbody]
        subst hc
        rw [withContext_self, setOwner_self hi]
        exact Shape.read (Or.inr ⟨b, rfl⟩)
  | borrowSet b v =>
    simp only [World.step] at h
    cases hb : w.borrow b with
    | none => simp [hb] at h
    | some hd =>
      cases hd with
      | ref r => simp [hb] at h
      | mutRef r =>
        simp only [hb, through_eq_ok] at h
        obtain ⟨i, o, a, c, hp, hi, hbody, rfl⟩ := h
        rw [valMutRef_set_ok hbody]
        exact Shape.wrote i o v (Or.inr ⟨b, rfl⟩) hi
  | borrowCopy b =>
    simp only [World.step] at h
    cases hb : w.borrow b with
    | none => simp [hb] at h
    | some hd =>
      cases hd with
      | mutRef r => simp [hb] at h
      | ref r =>
        simp only [hb, Result.ok.injEq] at h
        subst h
        exact Shape.copiedRef b r.context rfl hb
  | borrowAssign d b =>
    simp only [World.step] at h
    cases hd : w.borrow d with
    | none => simp [hd] at h
    | some hd1 =>
      cases hd1 with
      | mutRef r => simp [hd] at h
      | ref r1 =>
        cases hb : w.borrow b with
        | none => simp [hd, hb] at h
        | some hb1 =>
          cases hb1 with
          | mutRef r => simp [hd, hb] at h
          | ref r =>
            simp only [hd, hb, Result.ok.injEq] at h
            subst h
            exact Shape.assignedRef d b r1.context r.context rfl hd hb

theorem owner_mem {w : World T} {i : Nat} {o : Owner T} (hi : w.owner i = some o) :
    ({ owner := o, alive := true } : OwnerSlot T) ∈ w.owners := by
  unfold World.owner at hi
  cases hs : w.owners[i]? with
  | none => simp [hs] at hi
  | some s =>
    obtain ⟨so, sa⟩ := s
    simp only [hs] at hi
    cases sa <;> simp at hi
    subst hi
    exact List.getElem?_mem hs

theorem mem_pushOwner {w : World T} {o : Owner T} {s : OwnerSlot T}
    (h : s ∈ (w.pushOwner o).owners) : s ∈ w.owners ∨ s = { owner := o, alive := true } := by
  simpa [World.pushOwner] using h

theorem mem_setOwner {w : World T} {i : Nat} {o : Owner T} {s : OwnerSlot T}
    (h : s ∈ (w.setOwner i o).owners) : s ∈ w.owners ∨ s = { owner := o, alive := true } :=
  List.mem_or_eq_of_mem_set h

theorem mem_endOwner {w : World T} {i : Nat} {o : Owner T} {s : OwnerSlot T}
    (h : s ∈ (w.endOwner i o).owners) : s ∈ w.owners ∨ s = { owner := o, alive := false } :=
  List.mem_or_eq_of_mem_set h

theorem shape_keeps {P G : ValContext T → Prop} (hP : Kept P G) {w w1 : World T} {op : Op T}
    (hw : ∀ s ∈ w.owners, P s.owner.context) (hs : Shape w op w1)
    (hg : ∀ i o, op = Op.getRef i → w.owner i = some o → G o.context) :
    ∀ s ∈ w1.owners, P s.owner.context := by
  have hown : ∀ {i o}, w.owner i = some o → P o.context := fun hi => hw _ (owner_mem hi)
  cases hs with
  | fresh o v hop0 ho =>
    intro s hs
    rcases mem_pushOwner hs with h | rfl
    · exact hw s h
    · simp only [ho]; exact hP.new v
  | copied i o n hop0 hi hn =>
    intro s hs
    rcases mem_pushOwner hs with h | rfl
    · exact hw s h
    · simp only [hn]; exact hP.new _
  | relocated i o n hop hi hn =>
    intro s hs
    rcases mem_pushOwner hs with h | rfl
    · rcases mem_setOwner h with h | rfl
      · exact hw s h
      · simp only [context_withContext]; exact hP.moved _ (hown hi)
    · simp only [hn]; exact hown hi
  | read hop0 => exact hw
  | wrote i o v hop0 hi =>
    intro s hs
    rcases mem_setOwner hs with h | rfl
    · exact hw s h
    · simp only [context_withContext]; exact hP.setVal _ v (hown hi)
  | destroyed i o hop0 hi =>
    intro s hs
    rcases mem_endOwner hs with h | rfl
    · exact hw s h
    · exact hown hi
  | shared i o hop hi =>
    intro s hs
    rcases mem_setOwner hs with h | rfl
    · exact hw s h
    · simp only [context_withContext]; exact hP.addRef _ (hown hi) (hg i o hop hi)
  | exclusive i o hop0 hi h0 h1 =>
    intro s hs
    rcases mem_setOwner hs with h | rfl
    · exact hw s h
    · simp only [context_withContext]; exact hP.addMutRef _ (hown hi) h0 h1
  | expiredRef b i o hop0 hb hi hr =>
    intro s hs
    rcases mem_setOwner hs with h | rfl
    · exact hw s h
    · simp only [context_withContext]; exact hP.removeRef _ (hown hi) hr
  | expiredMutRef b i o hop0 hb hi hr =>
    intro s hs
    rcases mem_setOwner hs with h | rfl
    · exact hw s h
    · simp only [context_withContext]; exact hP.removeMutRef _ (hown hi) hr
  | copiedRef b p hop0 hb => exact hw
  | assignedRef d b q p hop0 hd hb => exact hw

theorem kept_mutRefs_le_one :
    Kept (fun c : ValContext T => c.mutRefs ≤ 1) (fun _ => True) where
  new := fun v => by simp [ValContext.new]
  moved := fun c h => h
  setVal := fun c v h => h
  addRef := fun c h _ => h
  removeRef := fun c h _ => h
  addMutRef := fun c _ _ _ => le_refl 1
  removeMutRef := fun c h _ => by
    show c.mutRefs - 1 ≤ 1
    omega

theorem kept_mutual_exclusion :
    Kept (fun c : ValContext T => c.refs = 0 ∨ c.mutRefs = 0) (fun c => c.mutRefs = 0) where
  new := fun v => by simp [ValContext.new]
  moved := fun c h => h
  setVal := fun c v h => h
  addRef := fun c _ hg => Or.inr hg
  removeRef := fun c h hr => by
    show c.refs - 1 = 0 ∨ c.mutRefs = 0
    omega
  addMutRef := fun c _ h0 _ => Or.inl h0
  removeMutRef := fun c h hr => by
    show c.refs = 0 ∨ c.mutRefs - 1 = 0
    omega

theorem run_mutRefs_le_one (ops : List (Op T)) (w w1 : World T)
    (hw : ∀ s ∈ w.owners, s.owner.context.mutRefs ≤ 1)
    (h : World.run w ops = Result.ok w1) : ∀ s ∈ w1.owners, s.owner.context.mutRefs ≤ 1 := by
  induction ops generalizing w with
  | nil =>
    simp only [World.run, Result.ok.injEq] at h
    subst h
    exact hw
  | cons op ops ih =>
    simp only [World.run] at h
    cases hst : World.step w op with
    | ok w2 =>
      rw [hst] at h
      exact ih w2 (shape_keeps kept_mutRefs_le_one hw (step_shape hst) fun _ _ _ _ => trivial) h
    | abort v => rw [hst] at h; cases h
    | undefined => rw [hst] at h; cases h

theorem run_mutual_exclusion (ops : List (Op T)) (w w1 : World T)
    (hw : ∀ s ∈ w.owners, s.owner.context.refs = 0 ∨ s.owner.context.mutRefs = 0)
    (hd : World.disciplined w ops = true)
    (h : World.run w ops = Result.ok w1) :
    ∀ s ∈ w1.owners, s.owner.context.refs = 0 ∨ s.owner.context.mutRefs = 0 := by
  induction ops generalizing w with
  | nil =>
    simp only [World.run, Result.ok.injEq] at h
    subst h
    exact hw
  | cons op ops ih =>
    simp only [World.run] at h
    cases hst : World.step w op with
    | ok w2 =>
      rw [hst] at h
      simp only [World.disciplined, hst, Bool.and_eq_true, Bool.not_eq_true'] at hd
      refine ih w2 (shape_keeps kept_mutual_exclusion hw (step_shape hst) ?_) hd.2 h
      intro i o hop hi
      subst hop
      simpa [World.sharesUnderExclusive, hi] using hd.1
    | abort v => rw [hst] at h; cases h
    | undefined => rw [hst] at h; cases h

theorem length_filter_set (p : BorrowSlot → Bool) (l : List BorrowSlot) (b : Nat)
    (a a1 : BorrowSlot) (hb : l[b]? = some a) (ha1 : p a1 = false) :
    ((l.set b a1).filter p).length + (if p a then 1 else 0) = (l.filter p).length := by
  induction l generalizing b with
  | nil => simp at hb
  | cons x xs ih =>
    cases b with
    | zero =>
      simp only [List.getElem?_cons_zero, Option.some.injEq] at hb
      subst hb
      simp only [List.set_cons_zero, List.filter_cons, ha1]
      by_cases hx : p x = true <;> simp [hx]
    | succ n =>
      simp only [List.getElem?_cons_succ] at hb
      have := ih n hb
      simp only [List.set_cons_succ, List.filter_cons]
      by_cases hx : p x = true <;> simp [hx] <;> omega

theorem borrow_getElem {w : World T} {b : Nat} {h : Handle} (hb : w.borrow b = some h) :
    w.borrows[b]? = some { handle := h, alive := true } := by
  unfold World.borrow at hb
  cases hs : w.borrows[b]? with
  | none => simp [hs] at hb
  | some s =>
    obtain ⟨sh, sa⟩ := s
    simp only [hs] at hb
    cases sa <;> simp at hb
    subst hb
    rfl

theorem owner_getElem {w : World T} {i : Nat} {o : Owner T} (hi : w.owner i = some o) :
    w.owners[i]? = some { owner := o, alive := true } := by
  unfold World.owner at hi
  cases hs : w.owners[i]? with
  | none => simp [hs] at hi
  | some s =>
    obtain ⟨so, sa⟩ := s
    simp only [hs] at hi
    cases sa <;> simp at hi
    subst hi
    rfl

theorem liveRefs_pushBorrow_ref (w : World T) (i j : Nat) :
    (w.pushBorrow (Handle.ref { context := some i })).liveRefs j =
      w.liveRefs j + (if j = i then 1 else 0) := by
  by_cases hji : j = i
  · subst hji
    simp [World.liveRefs, World.pushBorrow, List.filter_append]
  · have : ¬ i = j := fun h => hji h.symm
    simp [World.liveRefs, World.pushBorrow, List.filter_append, hji, this]

theorem liveMutRefs_pushBorrow_ref (w : World T) (i j : Nat) :
    (w.pushBorrow (Handle.ref { context := some i })).liveMutRefs j = w.liveMutRefs j := by
  simp [World.liveMutRefs, World.pushBorrow, List.filter_append]

theorem liveMutRefs_pushBorrow_mutRef (w : World T) (i j : Nat) :
    (w.pushBorrow (Handle.mutRef { context := some i })).liveMutRefs j =
      w.liveMutRefs j + (if j = i then 1 else 0) := by
  by_cases hji : j = i
  · subst hji
    simp [World.liveMutRefs, World.pushBorrow, List.filter_append]
  · have : ¬ i = j := fun h => hji h.symm
    simp [World.liveMutRefs, World.pushBorrow, List.filter_append, hji, this]

theorem liveRefs_pushBorrow_mutRef (w : World T) (i j : Nat) :
    (w.pushBorrow (Handle.mutRef { context := some i })).liveRefs j = w.liveRefs j := by
  simp [World.liveRefs, World.pushBorrow, List.filter_append]

theorem liveRefs_endBorrow_ref {w : World T} {b i : Nat}
    (hb : w.borrow b = some (Handle.ref { context := some i })) (j : Nat) :
    (w.endBorrow b (Handle.ref { context := some i })).liveRefs j +
      (if j = i then 1 else 0) = w.liveRefs j := by
  have h := length_filter_set
    (fun s => s.alive && s.handle == Handle.ref { context := some j }) w.borrows b
    { handle := Handle.ref { context := some i }, alive := true }
    { handle := Handle.ref { context := some i }, alive := false } (borrow_getElem hb) rfl
  by_cases hji : j = i
  · subst hji
    simpa [World.liveRefs, World.endBorrow] using h
  · have : ¬ i = j := fun h => hji h.symm
    simpa [World.liveRefs, World.endBorrow, hji, this] using h

theorem liveMutRefs_endBorrow_ref {w : World T} {b i : Nat}
    (hb : w.borrow b = some (Handle.ref { context := some i })) (j : Nat) :
    (w.endBorrow b (Handle.ref { context := some i })).liveMutRefs j = w.liveMutRefs j := by
  have h := length_filter_set
    (fun s => s.alive && s.handle == Handle.mutRef { context := some j }) w.borrows b
    { handle := Handle.ref { context := some i }, alive := true }
    { handle := Handle.ref { context := some i }, alive := false } (borrow_getElem hb) rfl
  simpa [World.liveMutRefs, World.endBorrow] using h

theorem liveMutRefs_endBorrow_mutRef {w : World T} {b i : Nat}
    (hb : w.borrow b = some (Handle.mutRef { context := some i })) (j : Nat) :
    (w.endBorrow b (Handle.mutRef { context := some i })).liveMutRefs j +
      (if j = i then 1 else 0) = w.liveMutRefs j := by
  have h := length_filter_set
    (fun s => s.alive && s.handle == Handle.mutRef { context := some j }) w.borrows b
    { handle := Handle.mutRef { context := some i }, alive := true }
    { handle := Handle.mutRef { context := some i }, alive := false } (borrow_getElem hb) rfl
  by_cases hji : j = i
  · subst hji
    simpa [World.liveMutRefs, World.endBorrow] using h
  · have : ¬ i = j := fun h => hji h.symm
    simpa [World.liveMutRefs, World.endBorrow, hji, this] using h

theorem liveRefs_endBorrow_mutRef {w : World T} {b i : Nat}
    (hb : w.borrow b = some (Handle.mutRef { context := some i })) (j : Nat) :
    (w.endBorrow b (Handle.mutRef { context := some i })).liveRefs j = w.liveRefs j := by
  have h := length_filter_set
    (fun s => s.alive && s.handle == Handle.ref { context := some j }) w.borrows b
    { handle := Handle.mutRef { context := some i }, alive := true }
    { handle := Handle.mutRef { context := some i }, alive := false } (borrow_getElem hb) rfl
  simpa [World.liveRefs, World.endBorrow] using h

theorem liveRefs_setOwner (w : World T) (i j : Nat) (o : Owner T) :
    (w.setOwner i o).liveRefs j = w.liveRefs j := rfl

theorem liveMutRefs_setOwner (w : World T) (i j : Nat) (o : Owner T) :
    (w.setOwner i o).liveMutRefs j = w.liveMutRefs j := rfl

theorem borrow_setOwner (w : World T) (i b : Nat) (o : Owner T) :
    (w.setOwner i o).borrow b = w.borrow b := rfl

theorem length_filter_set_any (p : BorrowSlot → Bool) (l : List BorrowSlot) (b : Nat)
    (a a1 : BorrowSlot) (hb : l[b]? = some a) :
    ((l.set b a1).filter p).length + (if p a then 1 else 0) =
      (l.filter p).length + (if p a1 then 1 else 0) := by
  induction l generalizing b with
  | nil => simp at hb
  | cons x xs ih =>
    cases b with
    | zero =>
      simp only [List.getElem?_cons_zero, Option.some.injEq] at hb
      subst hb
      simp only [List.set_cons_zero, List.filter_cons]
      by_cases hx : p x = true <;> by_cases ha : p a1 = true <;> simp [hx, ha]
    | succ n =>
      simp only [List.getElem?_cons_succ] at hb
      have := ih n hb
      simp only [List.set_cons_succ, List.filter_cons]
      by_cases hx : p x = true <;> simp [hx] <;> omega

theorem liveRefs_pushBorrow_anyRef (w : World T) (p : Option Nat) (j : Nat) :
    (w.pushBorrow (Handle.ref { context := p })).liveRefs j =
      w.liveRefs j + (if p = some j then 1 else 0) := by
  by_cases hp : p = some j
  · subst hp
    simp [World.liveRefs, World.pushBorrow, List.filter_append]
  · simp [World.liveRefs, World.pushBorrow, List.filter_append, hp]

theorem liveMutRefs_pushBorrow_anyRef (w : World T) (p : Option Nat) (j : Nat) :
    (w.pushBorrow (Handle.ref { context := p })).liveMutRefs j = w.liveMutRefs j := by
  simp [World.liveMutRefs, World.pushBorrow, List.filter_append]

theorem liveRefs_setBorrow_ref {w : World T} {d : Nat} {q : Option Nat} (p : Option Nat)
    (hd : w.borrow d = some (Handle.ref { context := q })) (j : Nat) :
    (w.setBorrow d (Handle.ref { context := p })).liveRefs j + (if q = some j then 1 else 0) =
      w.liveRefs j + (if p = some j then 1 else 0) := by
  have h := length_filter_set_any
    (fun s => s.alive && s.handle == Handle.ref { context := some j }) w.borrows d
    { handle := Handle.ref { context := q }, alive := true }
    { handle := Handle.ref { context := p }, alive := true } (borrow_getElem hd)
  by_cases hq : q = some j <;> by_cases hp : p = some j <;>
    simpa [World.liveRefs, World.setBorrow, hq, hp] using h

theorem liveMutRefs_setBorrow_ref {w : World T} {d : Nat} {q : Option Nat} (p : Option Nat)
    (hd : w.borrow d = some (Handle.ref { context := q })) (j : Nat) :
    (w.setBorrow d (Handle.ref { context := p })).liveMutRefs j = w.liveMutRefs j := by
  have h := length_filter_set_any
    (fun s => s.alive && s.handle == Handle.mutRef { context := some j }) w.borrows d
    { handle := Handle.ref { context := q }, alive := true }
    { handle := Handle.ref { context := p }, alive := true } (borrow_getElem hd)
  simpa [World.liveMutRefs, World.setBorrow] using h

theorem liveRefs_pos_of_borrow {w : World T} {b i : Nat}
    (hb : w.borrow b = some (Handle.ref { context := some i })) : 0 < w.liveRefs i := by
  have h := liveRefs_endBorrow_ref hb i
  simp only [if_true] at h
  omega

theorem related_update {R : ValContext T → Nat → Nat → Prop} {w w1 : World T} {i : Nat}
    {o : Owner T} (sl : OwnerSlot T)
    (hi : w.owner i = some o) (hown : w1.owners = w.owners.set i sl)
    (hcount : R sl.owner.context (w1.liveRefs i) (w1.liveMutRefs i))
    (hother : ∀ j, j ≠ i → w1.liveRefs j = w.liveRefs j ∧ w1.liveMutRefs j = w.liveMutRefs j)
    (hw : w.Related R) : w1.Related R := by
  have hlt : i < w.owners.length := by
    have := owner_getElem hi
    rcases Nat.lt_or_ge i w.owners.length with h | h
    · exact h
    · rw [List.getElem?_eq_none h] at this; cases this
  intro j
  by_cases hji : j = i
  · subst hji
    refine ⟨?_, ?_⟩
    · intro s hs
      rw [hown] at hs
      simp [List.getElem?_set, hlt] at hs
      subst hs
      exact hcount
    · intro hle
      rw [hown, List.length_set] at hle
      omega
  · have hij : ¬ i = j := fun h => hji h.symm
    obtain ⟨h1, h2⟩ := hother j hji
    refine ⟨?_, ?_⟩
    · intro s hs
      rw [hown] at hs
      simp [List.getElem?_set, hij] at hs
      rw [h1, h2]
      exact (hw j).1 s hs
    · intro hle
      rw [hown, List.length_set] at hle
      rw [h1, h2]
      exact (hw j).2 hle

theorem related_push {R : ValContext T → Nat → Nat → Prop} {w : World T} (n : Owner T)
    (hn : R n.context 0 0) (hw : w.Related R) : (w.pushOwner n).Related R := by
  intro j
  have hl : (w.pushOwner n).liveRefs j = w.liveRefs j := rfl
  have hm : (w.pushOwner n).liveMutRefs j = w.liveMutRefs j := rfl
  rw [hl, hm]
  refine ⟨?_, ?_⟩
  · intro s hs
    simp only [World.pushOwner] at hs
    rcases Nat.lt_or_ge j w.owners.length with h | h
    · rw [List.getElem?_append_left h] at hs
      exact (hw j).1 s hs
    · rw [List.getElem?_append_right h] at hs
      obtain ⟨h1, h2⟩ := (hw j).2 h
      cases hk : j - w.owners.length with
      | zero =>
        simp [hk] at hs
        subst hs
        rw [h1, h2]
        exact hn
      | succ k => simp [hk] at hs
  · intro hle
    simp only [World.pushOwner, List.length_append, List.length_singleton] at hle
    exact (hw j).2 (by omega)

theorem mutCovered_empty : (World.empty : World T).MutCovered := by
  intro i
  simp [World.empty, World.liveRefs, World.liveMutRefs]

theorem shape_mutCovered {w w1 : World T} {op : Op T} (hw : w.MutCovered)
    (hs : Shape w op w1) : w1.MutCovered := by
  cases hs with
  | fresh o v hop0 ho => exact related_push o (Nat.zero_le _) hw
  | copied i o n hop0 hi hn => exact related_push n (Nat.zero_le _) hw
  | relocated i o n hrel hi hn =>
    have hc : w.liveMutRefs i ≤ o.context.mutRefs := (hw i).1 _ (owner_getElem hi)
    refine related_push n (Nat.zero_le _) ?_
    refine related_update _ hi rfl ?_ (fun j _ => ⟨rfl, rfl⟩) hw
    simp only [context_withContext]
    exact hc
  | read hop0 => exact hw
  | wrote i o v hop0 hi =>
    have hc : w.liveMutRefs i ≤ o.context.mutRefs := (hw i).1 _ (owner_getElem hi)
    refine related_update _ hi rfl ?_ (fun j _ => ⟨rfl, rfl⟩) hw
    simp only [context_withContext]
    exact hc
  | destroyed i o hop0 hi =>
    have hc : w.liveMutRefs i ≤ o.context.mutRefs := (hw i).1 _ (owner_getElem hi)
    exact related_update { owner := o, alive := false } hi rfl hc (fun j _ => ⟨rfl, rfl⟩) hw
  | shared i o hop1 hi =>
    have hc : w.liveMutRefs i ≤ o.context.mutRefs := (hw i).1 _ (owner_getElem hi)
    refine related_update _ hi rfl ?_ ?_ hw
    · simp only [context_withContext, liveMutRefs_pushBorrow_ref, liveMutRefs_setOwner]
      exact hc
    · intro j hj
      constructor <;>
        simp [liveRefs_pushBorrow_ref, liveMutRefs_pushBorrow_ref, hj, liveRefs_setOwner,
          liveMutRefs_setOwner]
  | exclusive i o hop0 hi h0 h1 =>
    have hc : w.liveMutRefs i ≤ o.context.mutRefs := (hw i).1 _ (owner_getElem hi)
    refine related_update _ hi rfl ?_ ?_ hw
    · simp only [context_withContext, liveMutRefs_pushBorrow_mutRef, if_true,
        liveMutRefs_setOwner]
      omega
    · intro j hj
      constructor <;>
        simp [liveRefs_pushBorrow_mutRef, liveMutRefs_pushBorrow_mutRef, hj, liveRefs_setOwner,
          liveMutRefs_setOwner]
  | expiredRef b i o hop0 hb hi hr =>
    have hc : w.liveMutRefs i ≤ o.context.mutRefs := (hw i).1 _ (owner_getElem hi)
    have hb1 := (borrow_setOwner w i b
      (o.withContext { o.context with refs := o.context.refs - 1 })).trans hb
    refine related_update _ hi rfl ?_ ?_ hw
    · have h2 := liveMutRefs_endBorrow_ref hb1 i
      simp only [liveMutRefs_setOwner] at h2
      simp only [context_withContext, h2]
      exact hc
    · intro j hj
      have h1 := liveRefs_endBorrow_ref hb1 j
      have h2 := liveMutRefs_endBorrow_ref hb1 j
      simp only [hj, if_false, Nat.add_zero] at h1
      exact ⟨h1, h2⟩
  | expiredMutRef b i o hop0 hb hi hr =>
    have hc : w.liveMutRefs i ≤ o.context.mutRefs := (hw i).1 _ (owner_getElem hi)
    have hb1 := (borrow_setOwner w i b
      (o.withContext { o.context with mutRefs := o.context.mutRefs - 1 })).trans hb
    refine related_update _ hi rfl ?_ ?_ hw
    · have h1 := liveMutRefs_endBorrow_mutRef hb1 i
      simp only [if_true, liveMutRefs_setOwner] at h1
      simp only [context_withContext]
      omega
    · intro j hj
      have h1 := liveMutRefs_endBorrow_mutRef hb1 j
      have h2 := liveRefs_endBorrow_mutRef hb1 j
      simp only [hj, if_false, Nat.add_zero] at h1
      exact ⟨h2, h1⟩
  | copiedRef b p hop0 hb =>
    intro j
    have hl := liveRefs_pushBorrow_anyRef w p j
    have hm := liveMutRefs_pushBorrow_anyRef w p j
    refine ⟨fun s hs => ?_, fun hle => ?_⟩
    · have h1 : w.liveMutRefs j ≤ s.owner.context.mutRefs := (hw j).1 s hs
      show (w.pushBorrow (Handle.ref { context := p })).liveMutRefs j ≤ s.owner.context.mutRefs
      rw [hm]
      exact h1
    · obtain ⟨h1, h2⟩ := (hw j).2 hle
      have hp : ¬ p = some j := by
        intro hp
        subst hp
        have := liveRefs_pos_of_borrow hb
        omega
      rw [hl, hm, h1, h2]
      simp [hp]
  | assignedRef d b q p hop0 hd hb =>
    intro j
    have hl := liveRefs_setBorrow_ref p hd j
    have hm := liveMutRefs_setBorrow_ref p hd j
    refine ⟨fun s hs => ?_, fun hle => ?_⟩
    · have h1 : w.liveMutRefs j ≤ s.owner.context.mutRefs := (hw j).1 s hs
      show (w.setBorrow d (Handle.ref { context := p })).liveMutRefs j ≤
        s.owner.context.mutRefs
      rw [hm]
      exact h1
    · obtain ⟨h1, h2⟩ := (hw j).2 hle
      have hp : ¬ p = some j := by
        intro hp
        subst hp
        have := liveRefs_pos_of_borrow hb
        omega
      rw [hm, h2]
      simp only [hp, if_false, Nat.add_zero, h1] at hl
      exact ⟨by omega, rfl⟩

theorem run_mutCovered (ops : List (Op T)) (w w1 : World T) (hw : w.MutCovered)
    (h : World.run w ops = Result.ok w1) : w1.MutCovered := by
  induction ops generalizing w with
  | nil =>
    simp only [World.run, Result.ok.injEq] at h
    subst h
    exact hw
  | cons op ops ih =>
    simp only [World.run] at h
    cases hst : World.step w op with
    | ok w2 =>
      rw [hst] at h
      exact ih w2 (shape_mutCovered hw (step_shape hst)) h
    | abort v => rw [hst] at h; cases h
    | undefined => rw [hst] at h; cases h

theorem owner_pushOwner_old {w : World T} {i : Nat} {o : Owner T} (n : Owner T)
    (hi : w.owner i = some o) : (w.pushOwner n).owner i = some o := by
  have hg := owner_getElem hi
  have hlt : i < w.owners.length := by
    rcases Nat.lt_or_ge i w.owners.length with h | h
    · exact h
    · rw [List.getElem?_eq_none h] at hg; cases hg
  simp [World.owner, World.pushOwner, List.getElem?_append_left hlt, hg]

theorem owner_pushOwner_new (w : World T) (n : Owner T) :
    (w.pushOwner n).owner w.owners.length = some n := by
  simp [World.owner, World.pushOwner]

theorem owner_setOwner_same {w : World T} {i : Nat} {o : Owner T} (n : Owner T)
    (hi : w.owner i = some o) : (w.setOwner i n).owner i = some n := by
  have hg := owner_getElem hi
  have hlt : i < w.owners.length := by
    rcases Nat.lt_or_ge i w.owners.length with h | h
    · exact h
    · rw [List.getElem?_eq_none h] at hg; cases hg
  simp [World.owner, World.setOwner, List.getElem?_set, hlt]

theorem owner_setOwner_ne (w : World T) {i j : Nat} (n : Owner T) (hji : j ≠ i) :
    (w.setOwner i n).owner j = w.owner j := by
  have hij : ¬ i = j := fun h => hji h.symm
  simp [World.owner, World.setOwner, List.getElem?_set, hij]

theorem owner_lt_length {w : World T} {i : Nat} {o : Owner T} (hi : w.owner i = some o) :
    i < w.owners.length := by
  have hg := owner_getElem hi
  rcases Nat.lt_or_ge i w.owners.length with h | h
  · exact h
  · rw [List.getElem?_eq_none h] at hg; cases hg

theorem valMut_copy_eq (c : ValContext T) (h : c.moved = false) :
    ValMut.copy { context := c } =
      (Except.ok { context := ValContext.new c.val }, { context := c }) := by
  obtain ⟨r, m, v, mv⟩ := c
  simp only at h
  subst h
  simp [ValMut.copy, onContext, andThen, ValContext.getVal, ValContext.moveAssign,
    ValContext.assign, ValContext.new]

theorem valMut_ofVal_eq (c : ValContext T) (h : c.moved = false) :
    ValMut.ofVal { context := c } =
      (Except.ok { context := ValContext.new c.val }, { context := c }) := by
  obtain ⟨r, m, v, mv⟩ := c
  simp only at h
  subst h
  simp [ValMut.ofVal, Val.copy, Val.destroy, onContext, andThen, ValContext.getVal,
    ValContext.getRefs, ValContext.moveAssign, ValContext.assign, ValContext.new]

theorem valMut_set_eq (c : ValContext T) (v : T) (h : c.moved = false) :
    ValMut.set { context := c } v = (Except.ok (), { context := { c with val := v } }) := by
  obtain ⟨r, m, v0, mv⟩ := c
  simp only at h
  subst h
  simp [ValMut.set, onContext, ValContext.setVal]

theorem step_set_eq {w : World T} {i : Nat} {c : ValContext T} (v : T)
    (hi : w.owner i = some (Owner.valMut { context := c })) (h : c.moved = false) :
    World.step w (Op.set i v) =
      Result.ok (w.setOwner i (Owner.valMut { context := { c with val := v } })) := by
  simp [World.step, hi, valMut_set_eq c v h, World.finish]

theorem borrow_mem {w : World T} {b : Nat} {h : Handle} (hb : w.borrow b = some h) :
    ({ handle := h, alive := true } : BorrowSlot) ∈ w.borrows :=
  List.getElem?_mem (borrow_getElem hb)

theorem relocates_of_isBorrowOpOn {i : Nat} {op : Op T} (h : op.isBorrowOpOn i = true) :
    op.relocates = false := by
  cases op <;> simp [Op.isBorrowOpOn] at h <;> rfl

theorem relocates_of_isNew {op : Op T} (h : op.isNew = true) : op.relocates = false := by
  cases op <;> simp [Op.isNew] at h <;> rfl

theorem shape_borrowOps {w w1 : World T} {op : Op T} (hs : Shape w op w1)
    (hop : op.isBorrowOpOn 0 = true)
    (h0 : ∃ o, w.owner 0 = some o ∧ o.context.moved = false)
    (hb : ∀ s ∈ w.borrows, s.handle.context = some 0) :
    (∃ o, w1.owner 0 = some o ∧ o.context.moved = false) ∧
      (∀ s ∈ w1.borrows, s.handle.context = some 0) := by
  obtain ⟨o0, ho0, hm0⟩ := h0
  cases hs with
  | fresh o v hop0 ho => rcases hop0 with rfl | rfl <;> simp [Op.isBorrowOpOn] at hop
  | copied i o n hop0 hi hn => rcases hop0 with rfl | rfl <;> simp [Op.isBorrowOpOn] at hop
  | relocated i o n hop0 hi hn => rcases hop0 with rfl | rfl <;> simp [Op.isBorrowOpOn] at hop
  | read hop0 =>
    rcases hop0 with ⟨i, rfl⟩ | ⟨b, rfl⟩ <;> simp [Op.isBorrowOpOn] at hop
  | wrote i o v hop0 hi =>
    rcases hop0 with ⟨i, rfl⟩ | ⟨b, rfl⟩ <;> simp [Op.isBorrowOpOn] at hop
  | destroyed i o hop0 hi => subst hop0; simp [Op.isBorrowOpOn] at hop
  | shared i o hop0 hi =>
    subst hop0
    simp only [Op.isBorrowOpOn, beq_iff_eq] at hop
    subst hop
    rw [ho0] at hi
    cases hi
    refine ⟨⟨_, owner_setOwner_same _ ho0, ?_⟩, ?_⟩
    · simp only [context_withContext]; exact hm0
    · intro s hs
      simp only [World.pushBorrow, World.setOwner, List.mem_append, List.mem_singleton] at hs
      rcases hs with h | rfl
      · exact hb s h
      · rfl
  | exclusive i o hop0 hi h0 h1 =>
    subst hop0
    simp only [Op.isBorrowOpOn, beq_iff_eq] at hop
    subst hop
    rw [ho0] at hi
    cases hi
    refine ⟨⟨_, owner_setOwner_same _ ho0, ?_⟩, ?_⟩
    · simp only [context_withContext]; exact hm0
    · intro s hs
      simp only [World.pushBorrow, World.setOwner, List.mem_append, List.mem_singleton] at hs
      rcases hs with h | rfl
      · exact hb s h
      · rfl
  | expiredRef b i o hop0 hb0 hi hr =>
    have hi0 : some i = some 0 := hb _ (borrow_mem hb0)
    cases hi0
    rw [ho0] at hi
    cases hi
    refine ⟨⟨_, owner_setOwner_same _ ho0, ?_⟩, ?_⟩
    · simp only [context_withContext]; exact hm0
    · intro s hs
      rcases List.mem_or_eq_of_mem_set hs with h | rfl
      · exact hb s h
      · rfl
  | expiredMutRef b i o hop0 hb0 hi hr =>
    have hi0 : some i = some 0 := hb _ (borrow_mem hb0)
    cases hi0
    rw [ho0] at hi
    cases hi
    refine ⟨⟨_, owner_setOwner_same _ ho0, ?_⟩, ?_⟩
    · simp only [context_withContext]; exact hm0
    · intro s hs
      rcases List.mem_or_eq_of_mem_set hs with h | rfl
      · exact hb s h
      · rfl
  | copiedRef b p hop0 hb0 => subst hop0; simp [Op.isBorrowOpOn] at hop
  | assignedRef d b q p hop0 hd hb0 => subst hop0; simp [Op.isBorrowOpOn] at hop

theorem run_borrowOps (ops : List (Op T)) (w w1 : World T)
    (hops : ∀ op ∈ ops, op.isBorrowOpOn 0 = true)
    (h0 : ∃ o, w.owner 0 = some o ∧ o.context.moved = false)
    (hb : ∀ s ∈ w.borrows, s.handle.context = some 0)
    (h : World.run w ops = Result.ok w1) :
    (∃ o, w1.owner 0 = some o ∧ o.context.moved = false) ∧
      (∀ s ∈ w1.borrows, s.handle.context = some 0) := by
  induction ops generalizing w with
  | nil =>
    simp only [World.run, Result.ok.injEq] at h
    subst h
    exact ⟨h0, hb⟩
  | cons op ops ih =>
    simp only [World.run] at h
    cases hst : World.step w op with
    | ok w2 =>
      rw [hst] at h
      obtain ⟨h2, hb2⟩ := shape_borrowOps (step_shape hst) (hops op (List.mem_cons_self _ _)) h0 hb
      exact ih w2 (fun op1 h1 => hops op1 (List.mem_cons_of_mem _ h1)) h2 hb2 h
    | abort v => rw [hst] at h; cases h
    | undefined => rw [hst] at h; cases h

theorem step_isNew {w w1 : World T} {mk : Op T} (hmk : mk.isNew = true)
    (h : World.step w mk = Result.ok w1) :
    ∃ o, o.context.moved = false ∧ w1 = w.pushOwner o := by
  cases mk <;> simp [Op.isNew] at hmk
  · rename_i v
    simp only [World.step, Result.ok.injEq] at h
    exact ⟨Owner.val (Val.new v), rfl, h.symm⟩
  · rename_i v
    simp only [World.step, Result.ok.injEq] at h
    exact ⟨Owner.valMut (ValMut.new v), rfl, h.symm⟩

theorem step_getRef_sole (o : Owner T) (hc : o.context.moved = false) (bs : List BorrowSlot) :
    World.step ⟨[⟨o, true⟩], bs⟩ (Op.getRef 0) =
      Result.ok
        ⟨[⟨o.withContext { o.context with refs := (o.context.refs + 1) % UINT_MOD }, true⟩],
         bs ++ [⟨Handle.ref ⟨some 0⟩, true⟩]⟩ := by
  cases o with
  | val x =>
    simp only [Owner.context] at hc
    simp [World.step, World.owner, World.finish, Val.getRef, onContext, ValContext.addRef, hc,
      World.setOwner, World.pushBorrow, Owner.withContext, Owner.context]
  | valMut x =>
    simp only [Owner.context] at hc
    simp [World.step, World.owner, World.finish, ValMut.getRef, onContext, ValContext.addRef, hc,
      World.setOwner, World.pushBorrow, Owner.withContext, Owner.context]

theorem UINT_MOD_pos : 0 < UINT_MOD := by decide

theorem withContext_withContext (o : Owner T) (c c1 : ValContext T) :
    (o.withContext c).withContext c1 = o.withContext c1 := by
  cases o <;> rfl

theorem run_replicate_getRef (n : Nat) (o : Owner T) (hc : o.context.moved = false)
    (hlt : o.context.refs < UINT_MOD) (bs : List BorrowSlot) :
    World.run ⟨[⟨o, true⟩], bs⟩ (List.replicate n (Op.getRef 0)) =
      Result.ok
        ⟨[⟨o.withContext { o.context with refs := (o.context.refs + n) % UINT_MOD }, true⟩],
         bs ++ List.replicate n ⟨Handle.ref ⟨some 0⟩, true⟩⟩ := by
  induction n generalizing o bs with
  | zero =>
    have e : o.withContext ⟨o.context.refs, o.context.mutRefs, o.context.val,
        o.context.moved⟩ = o := withContext_self o
    simp only [List.replicate_zero, World.run, Nat.add_zero, List.append_nil,
      Nat.mod_eq_of_lt hlt, e]
  | succ n ih =>
    simp only [List.replicate_succ, World.run, step_getRef_sole o hc bs]
    have h := ih (o.withContext ⟨(o.context.refs + 1) % UINT_MOD, o.context.mutRefs,
        o.context.val, o.context.moved⟩)
      (by rw [context_withContext]; exact hc)
      (by rw [context_withContext]; exact Nat.mod_lt _ UINT_MOD_pos)
      (bs ++ [(⟨Handle.ref ⟨some 0⟩, true⟩ : BorrowSlot)])
    have e : ((o.context.refs + 1) % UINT_MOD + n) % UINT_MOD =
        (o.context.refs + (n + 1)) % UINT_MOD := by
      simp only [UINT_MOD]
      omega
    simp only [context_withContext, withContext_withContext, e, List.append_assoc,
      List.singleton_append] at h
    exact h

theorem after_getRefs (v : T) (n : Nat) :
    ∃ w : World T,
      World.run World.empty (Op.newVal v :: List.replicate n (Op.getRef 0)) = Result.ok w ∧
      w.liveRefs 0 = n ∧
      w.owner 0 = some (Owner.val ⟨⟨n % UINT_MOD, 0, v, false⟩⟩) ∧
      (0 < n → w.borrow 0 = some (Handle.ref ⟨some 0⟩)) := by
  have h := run_replicate_getRef n (Owner.val (Val.new v)) rfl UINT_MOD_pos []
  refine ⟨⟨[⟨Owner.val ⟨⟨n % UINT_MOD, 0, v, false⟩⟩, true⟩],
    List.replicate n ⟨Handle.ref ⟨some 0⟩, true⟩⟩, ?_, ?_, ?_, ?_⟩
  · simp only [World.run, World.step]
    simpa [ValContext.new, Val.new, ValContext.moveAssign, ValContext.assign, Owner.withContext,
      Owner.context] using h
  · simp [World.liveRefs, List.filter_replicate]
  · simp [World.owner]
  · intro hn
    simp [World.borrow, List.getElem?_replicate, hn]

theorem borrow_pushBorrow_new (w : World T) (h : Handle) :
    (w.pushBorrow h).borrow w.borrows.length = some h := by
  simp [World.borrow, World.pushBorrow]

theorem step_getRef_eq {w : World T} {i : Nat} {o : Owner T} (hi : w.owner i = some o)
    (hm : o.context.moved = false) :
    World.step w (Op.getRef i) =
      Result.ok
        ((w.setOwner i
            (o.withContext { o.context with refs := (o.context.refs + 1) % UINT_MOD })).pushBorrow
          (Handle.ref { context := some i })) := by
  cases o with
  | val x =>
    simp only [Owner.context] at hm
    simp [World.step, hi, World.finish, Val.getRef, onContext, ValContext.addRef, hm,
      Owner.withContext, Owner.context]
  | valMut x =>
    simp only [Owner.context] at hm
    simp [World.step, hi, World.finish, ValMut.getRef, onContext, ValContext.addRef, hm,
      Owner.withContext, Owner.context]

theorem step_getMutRef_eq {w : World T} {i : Nat} {c : ValContext T}
    (hi : w.owner i = some (Owner.valMut { context := c })) (hm : c.moved = false)
    (h0 : c.refs = 0) (h1 : c.mutRefs = 0) :
    World.step w (Op.getMutRef i) =
      Result.ok
        ((w.setOwner i (Owner.valMut { context := { c with mutRefs := 1 } })).pushBorrow
          (Handle.mutRef { context := some i })) := by
  obtain ⟨r, m, v, mv⟩ := c
  simp only at hm h0 h1
  subst hm h0 h1
  simp [World.step, hi, World.finish, ValMut.getMutRef, onContext, andThen, ValContext.getRefs,
    ValContext.getMutRefs, ValContext.addMutRef, UINT_MOD]

theorem step_getMutRef_abort {w : World T} {i : Nat} {c : ValContext T}
    (hi : w.owner i = some (Owner.valMut { context := c })) (hm : c.moved = false)
    (h0 : c.refs ≠ 0) :
    World.step w (Op.getMutRef i) = Result.abort Violation.mutWhileImmut := by
  obtain ⟨r, m, v, mv⟩ := c
  simp only at hm h0
  subst hm
  simp [World.step, hi, World.finish, ValMut.getMutRef, onContext, andThen, ValContext.getRefs,
    h0]

theorem step_get_valMut_eq {w : World T} {i : Nat} {c : ValContext T}
    (hi : w.owner i = some (Owner.valMut { context := c })) (hm : c.moved = false)
    (h1 : c.mutRefs = 0) : World.step w (Op.get i) = Result.ok w := by
  obtain ⟨r, m, v, mv⟩ := c
  simp only at hm h1
  subst hm h1
  simp [World.step, hi, World.finish, ValMut.get, onContext, andThen, ValContext.getMutRefs,
    ValContext.getVal, setOwner_self hi]

theorem step_get_valMut_abort {w : World T} {i : Nat} {c : ValContext T}
    (hi : w.owner i = some (Owner.valMut { context := c })) (hm : c.moved = false)
    (h1 : c.mutRefs ≠ 0) : World.step w (Op.get i) = Result.abort Violation.mutRefsAlive := by
  obtain ⟨r, m, v, mv⟩ := c
  simp only at hm h1
  subst hm
  simp [World.step, hi, World.finish, ValMut.get, onContext, andThen, ValContext.getMutRefs,
    h1]

theorem step_borrowGet_ref_eq {w : World T} {b i : Nat} {o : Owner T}
    (hb : w.borrow b = some (Handle.ref { context := some i })) (hi : w.owner i = some o)
    (hm : o.context.moved = false) : World.step w (Op.borrowGet b) = Result.ok w := by
  simp [World.step, hb, World.through, hi, World.finish, ValRef.get, ValContext.getVal, hm,
    withContext_self, setOwner_self hi]

theorem step_borrowGet_mutRef_eq {w : World T} {b i : Nat} {o : Owner T}
    (hb : w.borrow b = some (Handle.mutRef { context := some i })) (hi : w.owner i = some o)
    (hm : o.context.moved = false) (h0 : o.context.refs = 0) :
    World.step w (Op.borrowGet b) = Result.ok w := by
  simp [World.step, hb, World.through, hi, World.finish, ValMutRef.get, andThen,
    ValContext.getRefs, ValContext.getVal, hm, h0, withContext_self, setOwner_self hi]

theorem step_borrowSet_eq {w : World T} {b i : Nat} {o : Owner T} (v : T)
    (hb : w.borrow b = some (Handle.mutRef { context := some i })) (hi : w.owner i = some o)
    (hm : o.context.moved = false) (h0 : o.context.refs = 0) :
    World.step w (Op.borrowSet b v) =
      Result.ok (w.setOwner i (o.withContext { o.context with val := v })) := by
  simp [World.step, hb, World.through, hi, World.finish, ValMutRef.set, andThen,
    ValContext.getRefs, ValContext.setVal, hm, h0]

theorem step_expire_mutRef_eq {w : World T} {b i : Nat} {o : Owner T}
    (hb : w.borrow b = some (Handle.mutRef { context := some i })) (hi : w.owner i = some o)
    (hm : o.context.moved = false) (hr : o.context.mutRefs ≠ 0) :
    World.step w (Op.expire b) =
      Result.ok
        ((w.setOwner i
            (o.withContext { o.context with mutRefs := o.context.mutRefs - 1 })).endBorrow b
          (Handle.mutRef { context := some i })) := by
  simp [World.step, hb, World.through, hi, World.finish, ValMutRef.destroy,
    ValContext.removeMutRef, hm, hr]

theorem run_replicate_getRef_borrows (n : Nat) (w : World T) (j : Nat) (o : Owner T)
    (hj : w.owner j = some o) (hc : o.context.moved = false) :
    ∃ w1, World.run w (List.replicate n (Op.getRef j)) = Result.ok w1 ∧
      (∃ c, w1.owner j = some (o.withContext c) ∧ c.val = o.context.val ∧ c.moved = false) ∧
      w1.borrows = w.borrows ++ List.replicate n ⟨Handle.ref ⟨some j⟩, true⟩ := by
  induction n generalizing w o with
  | zero =>
    refine ⟨w, rfl, ⟨o.context, ?_, rfl, hc⟩, by simp⟩
    rw [withContext_self]
    exact hj
  | succ n ih =>
    have hj1 : ((w.setOwner j (o.withContext ⟨(o.context.refs + 1) % UINT_MOD,
        o.context.mutRefs, o.context.val, o.context.moved⟩)).pushBorrow
          (Handle.ref ⟨some j⟩)).owner j = some (o.withContext ⟨(o.context.refs + 1) % UINT_MOD,
        o.context.mutRefs, o.context.val, o.context.moved⟩) := owner_setOwner_same _ hj
    obtain ⟨w1, hrun, ⟨c, hown, hval, hmv⟩, hbor⟩ := ih _ _ hj1
      (by rw [context_withContext]; exact hc)
    simp only [context_withContext, withContext_withContext] at hown hval
    refine ⟨w1, ?_, ⟨c, hown, hval, hmv⟩, ?_⟩
    · simp only [List.replicate_succ, World.run, step_getRef_eq hj hc]
      exact hrun
    · rw [hbor]
      simp [World.pushBorrow, World.setOwner, List.replicate_succ]

theorem valueRead_borrowGet_ref {w : World T} {b i : Nat} {o : Owner T}
    (hb : w.borrow b = some (Handle.ref { context := some i })) (hi : w.owner i = some o)
    (hm : o.context.moved = false) :
    World.valueRead w (Op.borrowGet b) = some o.context.val := by
  simp [World.valueRead, hb, World.deref, hi, ValRef.get, ValContext.getVal, hm]

/-- The statements of `test_all` followed by the destructors at its end all complete;
each of the two statements that the test marks `// FAIL!` aborts where it stands in the
test. -/
theorem test_all_runs :
    (World.run World.empty (test_all ++ test_all_exit)).isOk = true ∧
    World.run World.empty (test_all.take 20 ++ [Op.getMutRef 1]) =
      Result.abort Violation.mutWhileImmut ∧
    World.run World.empty (test_all.take 22 ++ [Op.get 4]) =
      Result.abort Violation.mutRefsAlive := by
  refine ⟨?_, ?_, ?_⟩ <;> decide

end Lemmas

/-! ### The claims -/

section Claims

variable {T : Type}

/-- C1 (as stated, refuted): `check::ValMut<int> c = 10; auto d = c.getMutRef();
auto r = c.getRef();` completes, and then the context of `c` has `refs == 1` and
`mutRefs == 1`, so "`refs > 0` implies `mutRefs == 0`" does not hold in every state
reached by statements that do not fail. -/
theorem mutual_exclusion_fails_after_getMutRef_getRef :
    ¬ (∀ w : World Int,
        World.run World.empty [Op.newValMut 10, Op.getMutRef 0, Op.getRef 0] = Result.ok w →
        ∀ s ∈ w.owners,
          (0 < s.owner.context.refs → s.owner.context.mutRefs = 0) ∧
          (0 < s.owner.context.mutRefs → s.owner.context.refs = 0)) := by
  intro h
  have h1 := h
    ⟨[⟨Owner.valMut ⟨⟨1, 1, 10, false⟩⟩, true⟩],
     [⟨Handle.mutRef ⟨some 0⟩, true⟩, ⟨Handle.ref ⟨some 0⟩, true⟩]⟩
    (by decide) _ (List.mem_singleton.mpr rfl)
  have h2 := h1.1 (by decide)
  revert h2
  decide

/-- C1 (amended): in every state reached from the empty program by statements that all
complete (construction, copy, conversion, relocation, `get`, `set`, `getRef`,
`getMutRef`, destruction, borrow expiry, borrow `get`/`set`, copy of a shared borrow),
none of which calls
`getRef` on an owner whose `mutRefs` is not 0, every owner has `refs > 0` implies
`mutRefs == 0` and `mutRefs > 0` implies `refs == 0`. -/
theorem mutual_exclusion_of_disciplined (ops : List (Op T)) (w : World T)
    (h : World.run World.empty ops = Result.ok w)
    (hd : World.disciplined World.empty ops = true) :
    ∀ s ∈ w.owners,
      (0 < s.owner.context.refs → s.owner.context.mutRefs = 0) ∧
      (0 < s.owner.context.mutRefs → s.owner.context.refs = 0) := by
  intro s hs
  have := run_mutual_exclusion ops World.empty w (by simp [World.empty]) hd h s hs
  omega

/-- Witness for C1 (amended): two shared borrows, released, then an exclusive borrow. -/
theorem mutual_exclusion_of_disciplined_witness :
    World.run World.empty
        [Op.newValMut (3 : Int), Op.getRef 0, Op.getRef 0, Op.expire 0, Op.expire 1,
         Op.getMutRef 0] =
      Result.ok
        ⟨[⟨Owner.valMut ⟨⟨0, 1, 3, false⟩⟩, true⟩],
         [⟨Handle.ref ⟨some 0⟩, false⟩, ⟨Handle.ref ⟨some 0⟩, false⟩,
          ⟨Handle.mutRef ⟨some 0⟩, true⟩]⟩ ∧
    World.disciplined World.empty
        [Op.newValMut (3 : Int), Op.getRef 0, Op.getRef 0, Op.expire 0, Op.expire 1,
         Op.getMutRef 0] = true ∧
    ∀ s ∈ [(⟨Owner.valMut ⟨⟨0, 1, (3 : Int), false⟩⟩, true⟩ : OwnerSlot Int)],
      (0 < s.owner.context.refs → s.owner.context.mutRefs = 0) ∧
      (0 < s.owner.context.mutRefs → s.owner.context.refs = 0) :=
  ⟨by decide, by decide,
   mutual_exclusion_of_disciplined
     [Op.newValMut (3 : Int), Op.getRef 0, Op.getRef 0, Op.expire 0, Op.expire 1,
      Op.getMutRef 0]
     ⟨[⟨Owner.valMut ⟨⟨0, 1, 3, false⟩⟩, true⟩],
      [⟨Handle.ref ⟨some 0⟩, false⟩, ⟨Handle.ref ⟨some 0⟩, false⟩,
       ⟨Handle.mutRef ⟨some 0⟩, true⟩]⟩
     (by decide) (by decide)⟩

/-- C3: in every state reached from the empty program by statements that all complete
(construction, copy, conversion from an lvalue or an rvalue, relocation, `get`, `set`,
`getRef`, `getMutRef`, destruction, borrow expiry, borrow `get`/`set`, copy of a shared
borrow), every owner has `mutRefs` equal to 0 or 1. -/
theorem mutRefs_zero_or_one (ops : List (Op T)) (w : World T)
    (h : World.run World.empty ops = Result.ok w) :
    ∀ s ∈ w.owners, s.owner.context.mutRefs = 0 ∨ s.owner.context.mutRefs = 1 := by
  intro s hs
  have := run_mutRefs_le_one ops World.empty w (by simp [World.empty]) h s hs
  omega

/-- Witness for C3: an exclusive borrow, a shared borrow taken under it, and a
relocation of the owner. -/
theorem mutRefs_zero_or_one_witness :
    World.run World.empty [Op.newValMut (10 : Int), Op.getMutRef 0, Op.getRef 0, Op.relocate 0] =
      Result.ok
        ⟨[⟨Owner.valMut ⟨⟨1, 1, 10, true⟩⟩, true⟩, ⟨Owner.valMut ⟨⟨1, 1, 10, false⟩⟩, true⟩],
         [⟨Handle.mutRef ⟨some 0⟩, true⟩, ⟨Handle.ref ⟨some 0⟩, true⟩]⟩ ∧
    ∀ s ∈ [(⟨Owner.valMut ⟨⟨1, 1, (10 : Int), true⟩⟩, true⟩ : OwnerSlot Int),
           ⟨Owner.valMut ⟨⟨1, 1, 10, false⟩⟩, true⟩],
      s.owner.context.mutRefs = 0 ∨ s.owner.context.mutRefs = 1 :=
  ⟨by decide,
   mutRefs_zero_or_one
     [Op.newValMut (10 : Int), Op.getMutRef 0, Op.getRef 0, Op.relocate 0]
     ⟨[⟨Owner.valMut ⟨⟨1, 1, 10, true⟩⟩, true⟩, ⟨Owner.valMut ⟨⟨1, 1, 10, false⟩⟩, true⟩],
      [⟨Handle.mutRef ⟨some 0⟩, true⟩, ⟨Handle.ref ⟨some 0⟩, true⟩]⟩
     (by decide)⟩

/-- C5: in any program state, when owner `i` has not been moved from, copying it into a
`ValMut` (copy construction from a `ValMut`, conversion from an lvalue `Val`) completes
and puts the copy at a new address; `set(v)` on the copy then completes, changes the
value of the copy to `v` and leaves owner `i` (value, `refs`, `mutRefs`, `moved`) as it
was before the copy; and `set(v)` on a `ValMut` original after the copy changes the
original and leaves the copy with the copied value. -/
theorem copy_is_storage_independent (w : World T) (i : Nat) (c : ValContext T) (v : T)
    (hm : c.moved = false) :
    (w.owner i = some (Owner.valMut { context := c }) →
      ∃ w1 w2 w3,
        World.step w (Op.copy i) = Result.ok w1 ∧
        w1.owner i = some (Owner.valMut { context := c }) ∧
        w1.owner w.owners.length = some (Owner.valMut { context := ValContext.new c.val }) ∧
        World.step w1 (Op.set w.owners.length v) = Result.ok w2 ∧
        w2.owner i = some (Owner.valMut { context := c }) ∧
        w2.owner w.owners.length = some (Owner.valMut { context := ValContext.new v }) ∧
        World.step w1 (Op.set i v) = Result.ok w3 ∧
        w3.owner i = some (Owner.valMut { context := { c with val := v } }) ∧
        w3.owner w.owners.length = some (Owner.valMut { context := ValContext.new c.val })) ∧
    (w.owner i = some (Owner.val { context := c }) →
      ∃ w1 w2,
        World.step w (Op.convert i) = Result.ok w1 ∧
        w1.owner i = some (Owner.val { context := c }) ∧
        w1.owner w.owners.length = some (Owner.valMut { context := ValContext.new c.val }) ∧
        World.step w1 (Op.set w.owners.length v) = Result.ok w2 ∧
        w2.owner i = some (Owner.val { context := c }) ∧
        w2.owner w.owners.length = some (Owner.valMut { context := ValContext.new v })) := by
  constructor
  · intro hi
    have hlt := owner_lt_length hi
    have hne : i ≠ w.owners.length := Nat.ne_of_lt hlt
    have h1 : World.step w (Op.copy i) =
        Result.ok (w.pushOwner (Owner.valMut { context := ValContext.new c.val })) := by
      simp [World.step, hi, valMut_copy_eq c hm, World.finish, setOwner_self hi]
    have hold := owner_pushOwner_old (Owner.valMut { context := ValContext.new c.val }) hi
    have hnew := owner_pushOwner_new w (Owner.valMut { context := ValContext.new c.val })
    refine ⟨_, _, _, h1, hold, hnew, step_set_eq v hnew rfl, ?_, ?_, step_set_eq v hold hm, ?_, ?_⟩
    · rw [owner_setOwner_ne _ _ hne]; exact hold
    · exact owner_setOwner_same _ hnew
    · exact owner_setOwner_same _ hold
    · rw [owner_setOwner_ne _ _ hne.symm]; exact hnew
  · intro hi
    have hlt := owner_lt_length hi
    have hne : i ≠ w.owners.length := Nat.ne_of_lt hlt
    have h1 : World.step w (Op.convert i) =
        Result.ok (w.pushOwner (Owner.valMut { context := ValContext.new c.val })) := by
      simp [World.step, hi, valMut_ofVal_eq c hm, World.finish, setOwner_self hi]
    have hold := owner_pushOwner_old (Owner.valMut { context := ValContext.new c.val }) hi
    have hnew := owner_pushOwner_new w (Owner.valMut { context := ValContext.new c.val })
    refine ⟨_, _, h1, hold, hnew, step_set_eq v hnew rfl, ?_, ?_⟩
    · rw [owner_setOwner_ne _ _ hne]; exact hold
    · exact owner_setOwner_same _ hnew

/-- Witness for C5: `check::ValMut<int> y = 3; check::ValMut<int> z = y; z.set(7);`. -/
theorem copy_is_storage_independent_witness :
    (⟨0, 0, 3, false⟩ : ValContext Int).moved = false ∧
    ∃ w1 w2 w3 : World Int,
      World.step ⟨[⟨Owner.valMut ⟨⟨0, 0, 3, false⟩⟩, true⟩], []⟩ (Op.copy 0) = Result.ok w1 ∧
      w1.owner 0 = some (Owner.valMut ⟨⟨0, 0, 3, false⟩⟩) ∧
      w1.owner 1 = some (Owner.valMut ⟨ValContext.new 3⟩) ∧
      World.step w1 (Op.set 1 7) = Result.ok w2 ∧
      w2.owner 0 = some (Owner.valMut ⟨⟨0, 0, 3, false⟩⟩) ∧
      w2.owner 1 = some (Owner.valMut ⟨ValContext.new 7⟩) ∧
      World.step w1 (Op.set 0 7) = Result.ok w3 ∧
      w3.owner 0 = some (Owner.valMut ⟨⟨0, 0, 7, false⟩⟩) ∧
      w3.owner 1 = some (Owner.valMut ⟨ValContext.new 3⟩) :=
  ⟨rfl, (copy_is_storage_independent
    (⟨[⟨Owner.valMut ⟨⟨0, 0, 3, false⟩⟩, true⟩], []⟩ : World Int) 0 ⟨0, 0, 3, false⟩ 7 rfl).1
    (by decide)⟩

/-- C6: copy construction `Val(Val&)`, `ValMut(ValMut&)` and the conversion
`ValMut(Val)` from an lvalue, on a source that has not been moved from and whatever its
counters, return an owner whose context holds the value of the source with `refs == 0`,
`mutRefs == 0`, `moved == false`, and leave the source as it was; `get` on the copy
returns that value, and so does `get` on the source when its own assertion passes. -/
theorem copy_yields_fresh_context (c : ValContext T) (h : c.moved = false) :
    Val.copy { context := c } =
      (Except.ok { context := { refs := 0, mutRefs := 0, val := c.val, moved := false } },
       { context := c }) ∧
    ValMut.copy { context := c } =
      (Except.ok { context := { refs := 0, mutRefs := 0, val := c.val, moved := false } },
       { context := c }) ∧
    ValMut.ofVal { context := c } =
      (Except.ok { context := { refs := 0, mutRefs := 0, val := c.val, moved := false } },
       { context := c }) ∧
    (Val.get { context := { refs := 0, mutRefs := 0, val := c.val, moved := false } }).1 =
      Except.ok c.val ∧
    (ValMut.get { context := { refs := 0, mutRefs := 0, val := c.val, moved := false } }).1 =
      Except.ok c.val ∧
    (c.refs = 0 → (Val.get { context := c }).1 = Except.ok c.val) ∧
    (c.mutRefs = 0 → (ValMut.get { context := c }).1 = Except.ok c.val) := by
  obtain ⟨r, m, v, mv⟩ := c
  simp only at h
  subst h
  refine ⟨?_, ?_, ?_, ?_, ?_, ?_, ?_⟩ <;>
    simp [Val.copy, ValMut.copy, ValMut.ofVal, Val.destroy, Val.get, ValMut.get, onContext,
      andThen, ValContext.getVal, ValContext.getRefs, ValContext.getMutRefs,
      ValContext.moveAssign, ValContext.assign, ValContext.new]
  all_goals (intro h0; simp [h0])

/-- Witness for C6: a source with two shared borrows and one exclusive borrow counted. -/
theorem copy_yields_fresh_context_witness :
    ({ refs := 2, mutRefs := 1, val := (3 : Int), moved := false } : ValContext Int).moved
      = false ∧
    ValMut.copy { context := { refs := 2, mutRefs := 1, val := (3 : Int), moved := false } } =
      (Except.ok { context := { refs := 0, mutRefs := 0, val := 3, moved := false } },
       { context := { refs := 2, mutRefs := 1, val := 3, moved := false } }) :=
  ⟨rfl, (copy_yields_fresh_context
    { refs := 2, mutRefs := 1, val := (3 : Int), moved := false } rfl).2.1⟩

/-- C7: move construction `Val(Val&&)` and `ValMut(ValMut&&)` gives the new owner a
context with the `refs`, `mutRefs`, `val` and `moved` of the source as they were, and
leaves the source with `moved == true` and its `refs`, `mutRefs`, `val` as they were. -/
theorem move_copies_context_and_marks_source (c : ValContext T) :
    Val.move { context := c } =
      ({ context := c },
       { context := { refs := c.refs, mutRefs := c.mutRefs, val := c.val, moved := true } }) ∧
    ValMut.move { context := c } =
      ({ context := c },
       { context := { refs := c.refs, mutRefs := c.mutRefs, val := c.val, moved := true } }) := by
  obtain ⟨r, m, v, mv⟩ := c
  simp [Val.move, ValMut.move, ValContext.moveAssign, ValContext.assign]

/-- C8: on the source of a move construction, whatever value and counters it had,
`get`, `getRef`, copy construction from it, the conversion `ValMut(Val)` from it and, for
a `ValMut`, `set` and `getMutRef` all stop at `assert(!this->moved)`, and the source is
then as the move left it. -/
theorem use_after_move_fails (c : ValContext T) (v : T) :
    Val.get (Val.move { context := c }).2 =
      (Except.error Violation.moved, (Val.move { context := c }).2) ∧
    Val.getRef (Val.move { context := c }).2 =
      (Except.error Violation.moved, (Val.move { context := c }).2) ∧
    Val.copy (Val.move { context := c }).2 =
      (Except.error Violation.moved, (Val.move { context := c }).2) ∧
    ValMut.ofVal (Val.move { context := c }).2 =
      (Except.error Violation.moved, (Val.move { context := c }).2) ∧
    ValMut.get (ValMut.move { context := c }).2 =
      (Except.error Violation.moved, (ValMut.move { context := c }).2) ∧
    ValMut.set (ValMut.move { context := c }).2 v =
      (Except.error Violation.moved, (ValMut.move { context := c }).2) ∧
    ValMut.getRef (ValMut.move { context := c }).2 =
      (Except.error Violation.moved, (ValMut.move { context := c }).2) ∧
    ValMut.getMutRef (ValMut.move { context := c }).2 =
      (Except.error Violation.moved, (ValMut.move { context := c }).2) ∧
    ValMut.copy (ValMut.move { context := c }).2 =
      (Except.error Violation.moved, (ValMut.move { context := c }).2) := by
  obtain ⟨r, m, v0, mv⟩ := c
  simp [Val.move, ValMut.move, Val.get, Val.getRef, Val.copy, ValMut.ofVal, ValMut.get,
    ValMut.set, ValMut.getRef, ValMut.getMutRef, ValMut.copy, onContext, andThen,
    ValContext.getVal, ValContext.getRefs, ValContext.getMutRefs, ValContext.addRef,
    ValContext.setVal, ValContext.moveAssign, ValContext.assign]

/-- C9 (the code at the failing input): after `check::Val<int> a = 1;` and
`check::Val<int> b = std::move(a);` the destructor of `a` stops at
`assert(!this->moved)` inside `getRefs`, although no borrow was ever taken; the same
holds for `ValMut`, and for every source of a move construction. -/
theorem destroy_moved_from_aborts :
    World.run World.empty [Op.newVal (1 : Int), Op.relocate 0, Op.destroy 0] =
      Result.abort Violation.moved ∧
    World.run World.empty [Op.newValMut (1 : Int), Op.relocate 0, Op.destroy 0] =
      Result.abort Violation.moved ∧
    Val.destroy (Val.move (Val.new (1 : Int))).2 =
      (Except.error Violation.moved,
       { context := { refs := 0, mutRefs := 0, val := 1, moved := true } }) ∧
    ValMut.destroy (ValMut.move (ValMut.new (1 : Int))).2 =
      (Except.error Violation.moved,
       { context := { refs := 0, mutRefs := 0, val := 1, moved := true } }) ∧
    (∀ c : ValContext Int,
      (Val.destroy (Val.move { context := c }).2).1 = Except.error Violation.moved ∧
      (ValMut.destroy (ValMut.move { context := c }).2).1 = Except.error Violation.moved) := by
  refine ⟨by decide, by decide, by decide, by decide, ?_⟩
  intro c
  simp [Val.destroy, ValMut.destroy, Val.move, ValMut.move, onContext, andThen,
    ValContext.getRefs, ValContext.moveAssign]

/-- C11: for a `ValMut` that has not been moved from, `get` returns if and only if
`mutRefs == 0`, whatever `refs` is; it then returns `val` and leaves the owner as it
was, and with `mutRefs != 0` it stops at "Cannot be used until all the mut refs go out
of scope". Scenario D: on an owner with both counters 0, `getMutRef` completes, `get`
on the new exclusive borrow reads the value of the owner through the pointer, and `get`
on the owner aborts; and in every program `get` on the owner aborts while an exclusive
borrow that points at it is in scope. -/
theorem valMut_get_iff_mutRefs_zero (x : ValMut T) (hm : x.context.moved = false) :
    ((∃ a, (ValMut.get x).1 = Except.ok a) ↔ x.context.mutRefs = 0) ∧
    (x.context.mutRefs = 0 → ValMut.get x = (Except.ok x.context.val, x)) ∧
    (x.context.mutRefs ≠ 0 → ValMut.get x = (Except.error Violation.mutRefsAlive, x)) ∧
    (x.context.refs = 0 → x.context.mutRefs = 0 →
      ValMutRef.get { x.context with mutRefs := 1 } =
        (Except.ok x.context.val, { x.context with mutRefs := 1 }) ∧
      ∀ (w : World T) (i : Nat), w.owner i = some (Owner.valMut x) →
        ∃ w1, World.step w (Op.getMutRef i) = Result.ok w1 ∧
          w1.borrow w.borrows.length = some (Handle.mutRef { context := some i }) ∧
          w1.owner i = some (Owner.valMut { context := { x.context with mutRefs := 1 } }) ∧
          World.step w1 (Op.borrowGet w.borrows.length) = Result.ok w1 ∧
          World.step w1 (Op.get i) = Result.abort Violation.mutRefsAlive) ∧
    (∀ (ops : List (Op T)) (w : World T) (i : Nat),
      World.run World.empty ops = Result.ok w →
      w.owner i = some (Owner.valMut x) →
      0 < w.liveMutRefs i →
      World.step w (Op.get i) = Result.abort Violation.mutRefsAlive) := by
  obtain ⟨⟨r, m, v0, mv⟩⟩ := x
  simp only at hm
  subst hm
  refine ⟨?_, ?_, ?_, ?_, ?_⟩
  · by_cases hr : m = 0 <;>
      simp [ValMut.get, onContext, andThen, ValContext.getMutRefs, ValContext.getVal, hr]
  · intro hr
    simp only at hr
    simp [ValMut.get, onContext, andThen, ValContext.getMutRefs, ValContext.getVal, hr]
  · intro hr
    simp only at hr
    simp [ValMut.get, onContext, andThen, ValContext.getMutRefs, hr]
  · intro h0 h1
    simp only at h0 h1
    subst h0 h1
    refine ⟨by simp [ValMutRef.get, andThen, ValContext.getRefs, ValContext.getVal], ?_⟩
    intro w i hi
    have hown : ((w.setOwner i (Owner.valMut ⟨⟨0, 1, v0, false⟩⟩)).pushBorrow
        (Handle.mutRef ⟨some i⟩)).owner i = some (Owner.valMut ⟨⟨0, 1, v0, false⟩⟩) :=
      owner_setOwner_same _ hi
    have hbor : ((w.setOwner i (Owner.valMut ⟨⟨0, 1, v0, false⟩⟩)).pushBorrow
        (Handle.mutRef ⟨some i⟩)).borrow w.borrows.length = some (Handle.mutRef ⟨some i⟩) :=
      borrow_pushBorrow_new (w.setOwner i (Owner.valMut ⟨⟨0, 1, v0, false⟩⟩)) _
    exact ⟨_, step_getMutRef_eq hi rfl rfl rfl, hbor, hown,
      step_borrowGet_mutRef_eq hbor hown rfl rfl,
      step_get_valMut_abort hown rfl (Nat.succ_ne_zero 0)⟩
  · intro ops w i hrun hi hpos
    have hc : w.liveMutRefs i ≤ m :=
      ((run_mutCovered ops World.empty w mutCovered_empty hrun) i).1 _ (owner_getElem hi)
    exact step_get_valMut_abort hi rfl (by show m ≠ 0; omega)

/-- Witness for C11: `check::ValMut<int> c = 10; auto d = c.getMutRef();` as in
`test_all`, where `c.get()` is marked `// FAIL!`. -/
theorem valMut_get_iff_mutRefs_zero_witness :
    (⟨⟨0, 1, 10, false⟩⟩ : ValMut Int).context.moved = false ∧
    ValMut.get (⟨⟨0, 1, 10, false⟩⟩ : ValMut Int) =
      (Except.error Violation.mutRefsAlive, ⟨⟨0, 1, 10, false⟩⟩) ∧
    World.step
      (⟨[⟨Owner.valMut ⟨⟨0, 1, 10, false⟩⟩, true⟩], [⟨Handle.mutRef ⟨some 0⟩, true⟩]⟩ : World Int)
      (Op.get 0) = Result.abort Violation.mutRefsAlive :=
  ⟨rfl, (valMut_get_iff_mutRefs_zero (⟨⟨0, 1, 10, false⟩⟩ : ValMut Int) rfl).2.2.1 (by decide),
   (valMut_get_iff_mutRefs_zero (⟨⟨0, 1, 10, false⟩⟩ : ValMut Int) rfl).2.2.2.2
     [Op.newValMut 10, Op.getMutRef 0]
     ⟨[⟨Owner.valMut ⟨⟨0, 1, 10, false⟩⟩, true⟩], [⟨Handle.mutRef ⟨some 0⟩, true⟩]⟩ 0
     (by decide) (by decide) (by decide)⟩

/-- C12: `set(w)` on a `ValMut` that has not been moved from, whatever its counters,
returns, makes `val` equal to `w` and leaves `refs`, `mutRefs` and `moved` as they were;
`ValMut(v).get()` returns `v`; and after `set(w)`, `get()` returns `w` whenever
`mutRefs == 0`. -/
theorem set_writes_unconditionally (c : ValContext T) (v w : T) (hm : c.moved = false) :
    ValMut.set { context := c } w =
      (Except.ok (),
       { context := { refs := c.refs, mutRefs := c.mutRefs, val := w, moved := c.moved } }) ∧
    ValMut.get (ValMut.new v) = (Except.ok v, ValMut.new v) ∧
    (ValMut.set (ValMut.new v) w).1 = Except.ok () ∧
    ValMut.get (ValMut.set (ValMut.new v) w).2 =
      (Except.ok w, (ValMut.set (ValMut.new v) w).2) ∧
    (c.mutRefs = 0 →
      ValMut.get (ValMut.set { context := c } w).2 =
        (Except.ok w, (ValMut.set { context := c } w).2)) := by
  obtain ⟨r, m, v0, mv⟩ := c
  simp only at hm
  subst hm
  refine ⟨?_, ?_, ?_, ?_, ?_⟩
  · simp [ValMut.set, onContext, ValContext.setVal]
  · simp [ValMut.get, ValMut.new, onContext, andThen, ValContext.getMutRefs, ValContext.getVal,
      ValContext.moveAssign, ValContext.assign, ValContext.new]
  · simp [ValMut.set, ValMut.new, onContext, ValContext.setVal, ValContext.moveAssign,
      ValContext.assign, ValContext.new]
  · simp [ValMut.get, ValMut.set, ValMut.new, onContext, andThen, ValContext.getMutRefs,
      ValContext.getVal, ValContext.setVal, ValContext.moveAssign, ValContext.assign,
      ValContext.new]
  · intro h0
    simp only at h0
    simp [ValMut.get, ValMut.set, onContext, andThen, ValContext.getMutRefs,
      ValContext.getVal, ValContext.setVal, h0]

/-- Witness for C12: `y.set(3)` on a `ValMut` with two shared borrows and an exclusive
borrow counted. -/
theorem set_writes_unconditionally_witness :
    (⟨2, 1, 2, false⟩ : ValContext Int).moved = false ∧
    ValMut.set (⟨⟨2, 1, 2, false⟩⟩ : ValMut Int) 3 = (Except.ok (), ⟨⟨2, 1, 3, false⟩⟩) ∧
    ValMut.get (ValMut.set (ValMut.new (2 : Int)) 3).2 =
      (Except.ok 3, (ValMut.set (ValMut.new (2 : Int)) 3).2) :=
  ⟨rfl, (set_writes_unconditionally (⟨2, 1, 2, false⟩ : ValContext Int) 2 3 rfl).1,
   (set_writes_unconditionally (⟨2, 1, 2, false⟩ : ValContext Int) 2 3 rfl).2.2.2.1⟩

/-- C13: in any program state, for a `ValMut` at address `i` with both counters 0 that
has not been moved from, and every value `x`: `getMutRef` completes and yields a borrow
`d`; `d.set(x)` completes, makes the value of the owner `x` and leaves both counters as
they were (0 and 1); `d.get()` then returns `x`; the expiry of `d` completes and leaves
the counters (0, 0); and `get` on the owner then returns `x`. -/
theorem write_through_exclusive_borrow (w : World T) (i : Nat) (v x : T)
    (hi : w.owner i = some (Owner.valMut ⟨⟨0, 0, v, false⟩⟩)) :
    ∃ w1 w2 w3,
      World.step w (Op.getMutRef i) = Result.ok w1 ∧
      w1.borrow w.borrows.length = some (Handle.mutRef ⟨some i⟩) ∧
      w1.owner i = some (Owner.valMut ⟨⟨0, 1, v, false⟩⟩) ∧
      World.step w1 (Op.borrowSet w.borrows.length x) = Result.ok w2 ∧
      ValMutRef.set (⟨0, 1, v, false⟩ : ValContext T) x = (Except.ok (), ⟨0, 1, x, false⟩) ∧
      w2.owner i = some (Owner.valMut ⟨⟨0, 1, x, false⟩⟩) ∧
      World.step w2 (Op.borrowGet w.borrows.length) = Result.ok w2 ∧
      ValMutRef.get (⟨0, 1, x, false⟩ : ValContext T) = (Except.ok x, ⟨0, 1, x, false⟩) ∧
      World.step w2 (Op.expire w.borrows.length) = Result.ok w3 ∧
      w3.borrow w.borrows.length = none ∧
      w3.owner i = some (Owner.valMut ⟨⟨0, 0, x, false⟩⟩) ∧
      World.step w3 (Op.get i) = Result.ok w3 ∧
      ValMut.get (⟨⟨0, 0, x, false⟩⟩ : ValMut T) = (Except.ok x, ⟨⟨0, 0, x, false⟩⟩) := by
  have hown1 : ((w.setOwner i (Owner.valMut ⟨⟨0, 1, v, false⟩⟩)).pushBorrow
      (Handle.mutRef ⟨some i⟩)).owner i = some (Owner.valMut ⟨⟨0, 1, v, false⟩⟩) :=
    owner_setOwner_same _ hi
  have hbor1 : ((w.setOwner i (Owner.valMut ⟨⟨0, 1, v, false⟩⟩)).pushBorrow
      (Handle.mutRef ⟨some i⟩)).borrow w.borrows.length = some (Handle.mutRef ⟨some i⟩) :=
    borrow_pushBorrow_new (w.setOwner i (Owner.valMut ⟨⟨0, 1, v, false⟩⟩)) _
  have hstep2 := step_borrowSet_eq x hbor1 hown1 rfl rfl
  have hown2 := owner_setOwner_same (Owner.valMut ⟨⟨0, 1, x, false⟩⟩) hown1
  have hbor2 := (borrow_setOwner _ i w.borrows.length (Owner.valMut ⟨⟨0, 1, x, false⟩⟩)).trans
    hbor1
  have hstep3 := step_expire_mutRef_eq hbor2 hown2 rfl (Nat.succ_ne_zero 0)
  have hown3 := owner_setOwner_same (Owner.valMut ⟨⟨0, 0, x, false⟩⟩) hown2
  refine ⟨_, _, _, step_getMutRef_eq hi rfl rfl rfl, hbor1, hown1, hstep2, ?_, hown2,
    step_borrowGet_mutRef_eq hbor2 hown2 rfl rfl, ?_, hstep3, ?_, hown3,
    step_get_valMut_eq hown3 rfl rfl, ?_⟩
  · simp [ValMutRef.set, andThen, ValContext.getRefs, ValContext.setVal]
  · simp [ValMutRef.get, andThen, ValContext.getRefs, ValContext.getVal]
  · simp [World.borrow, World.endBorrow, World.setOwner, World.pushBorrow, List.getElem?_set]
  · simp [ValMut.get, onContext, andThen, ValContext.getMutRefs, ValContext.getVal]

/-- Witness for C13: `check::ValMut<int> c = 10; { auto d = c.getMutRef(); d.set(7); }`. -/
theorem write_through_exclusive_borrow_witness :
    (⟨[⟨Owner.valMut ⟨⟨0, 0, 10, false⟩⟩, true⟩], []⟩ : World Int).owner 0 =
      some (Owner.valMut ⟨⟨0, 0, 10, false⟩⟩) ∧
    World.run ⟨[⟨Owner.valMut ⟨⟨0, 0, (10 : Int), false⟩⟩, true⟩], []⟩
        [Op.getMutRef 0, Op.borrowSet 0 7, Op.borrowGet 0, Op.expire 0, Op.get 0] =
      Result.ok ⟨[⟨Owner.valMut ⟨⟨0, 0, 7, false⟩⟩, true⟩], [⟨Handle.mutRef ⟨some 0⟩, false⟩]⟩ ∧
    ∃ w1 w2 w3 : World Int,
      World.step ⟨[⟨Owner.valMut ⟨⟨0, 0, 10, false⟩⟩, true⟩], []⟩ (Op.getMutRef 0) =
        Result.ok w1 ∧
      World.step w1 (Op.borrowSet 0 7) = Result.ok w2 ∧
      World.step w2 (Op.expire 0) = Result.ok w3 ∧
      w3.owner 0 = some (Owner.valMut ⟨⟨0, 0, 7, false⟩⟩) :=
  ⟨by decide, by decide,
   (write_through_exclusive_borrow
      (⟨[⟨Owner.valMut ⟨⟨0, 0, 10, false⟩⟩, true⟩], []⟩ : World Int) 0 10 7 (by decide)).imp
     fun _ h1 => h1.imp fun _ h2 => h2.imp fun _ h =>
       ⟨h.1, h.2.2.2.1, h.2.2.2.2.2.2.2.2.1, h.2.2.2.2.2.2.2.2.2.2.1⟩⟩

/-- C14: `ValRef::get` on a context that has not been moved from returns `val` and leaves
the context as it was, whatever the counters. In any program state, `get` on a shared
borrow that points at an owner that has not been moved from completes, leaves the program
state as it was and returns the value stored in the context of that owner; after `n`
calls of `getRef` on the owner, each of the `n` new borrows is in scope, points at the
owner, and `get` on it returns the value of the owner; and after `set(v)` on a `ValMut`
owner, every borrow that pointed at the owner still does, and `get` on it returns `v`. -/
theorem shared_borrow_reads_through (c : ValContext T) (v : T) (hm : c.moved = false) :
    ValRef.get c = (Except.ok c.val, c) ∧
    ValRef.get { c with val := v } = (Except.ok v, { c with val := v }) ∧
    (∀ (w : World T) (b i : Nat) (o : Owner T),
      w.borrow b = some (Handle.ref ⟨some i⟩) → w.owner i = some o → o.context = c →
      World.step w (Op.borrowGet b) = Result.ok w ∧
      World.valueRead w (Op.borrowGet b) = some c.val) ∧
    (∀ (w : World T) (i n : Nat) (o : Owner T),
      w.owner i = some o → o.context = c →
      ∃ w1, World.run w (List.replicate n (Op.getRef i)) = Result.ok w1 ∧
        ∀ k, k < n →
          w1.borrow (w.borrows.length + k) = some (Handle.ref ⟨some i⟩) ∧
          World.step w1 (Op.borrowGet (w.borrows.length + k)) = Result.ok w1 ∧
          World.valueRead w1 (Op.borrowGet (w.borrows.length + k)) = some c.val) ∧
    (∀ (w : World T) (i : Nat), w.owner i = some (Owner.valMut ⟨c⟩) →
      ∃ w1, World.step w (Op.set i v) = Result.ok w1 ∧
        w1.owner i = some (Owner.valMut ⟨{ c with val := v }⟩) ∧
        ∀ b, w.borrow b = some (Handle.ref ⟨some i⟩) →
          w1.borrow b = some (Handle.ref ⟨some i⟩) ∧
          World.step w1 (Op.borrowGet b) = Result.ok w1 ∧
          World.valueRead w1 (Op.borrowGet b) = some v) := by
  refine ⟨?_, ?_, ?_, ?_, ?_⟩
  · simp [ValRef.get, ValContext.getVal, hm]
  · simp [ValRef.get, ValContext.getVal, hm]
  · intro w b i o hb hi hc
    have hmo : o.context.moved = false := by rw [hc]; exact hm
    refine ⟨step_borrowGet_ref_eq hb hi hmo, ?_⟩
    rw [valueRead_borrowGet_ref hb hi hmo, hc]
  · intro w i n o hi hc
    have hmo : o.context.moved = false := by rw [hc]; exact hm
    obtain ⟨w1, hrun, ⟨c1, hown, hval, hmv⟩, hbor⟩ := run_replicate_getRef_borrows n w i o hi hmo
    refine ⟨w1, hrun, fun k hk => ?_⟩
    have hg : (w.borrows ++ List.replicate n
        (⟨Handle.ref ⟨some i⟩, true⟩ : BorrowSlot))[w.borrows.length + k]? =
        some ⟨Handle.ref ⟨some i⟩, true⟩ := by
      rw [List.getElem?_append_right (Nat.le_add_right _ _), Nat.add_sub_cancel_left,
        List.getElem?_replicate]
      simp [hk]
    have hb : w1.borrow (w.borrows.length + k) = some (Handle.ref ⟨some i⟩) := by
      simp only [World.borrow, hbor, hg]
      rfl
    have hm1 : (o.withContext c1).context.moved = false := by
      rw [context_withContext]
      exact hmv
    refine ⟨hb, step_borrowGet_ref_eq hb hown hm1, ?_⟩
    rw [valueRead_borrowGet_ref hb hown hm1, context_withContext, hval, hc]
  · intro w i hi
    have hown := owner_setOwner_same (Owner.valMut ⟨{ c with val := v }⟩) hi
    refine ⟨_, step_set_eq v hi hm, hown, ?_⟩
    intro b hb
    have hb1 := (borrow_setOwner w i b (Owner.valMut ⟨{ c with val := v }⟩)).trans hb
    exact ⟨hb1, step_borrowGet_ref_eq hb1 hown hm, valueRead_borrowGet_ref hb1 hown hm⟩

/-- Witness for C14: `check::Val<int> x = 1; auto a = x.getRef(); auto a2 = x.getRef();`
as in `test_all`, where `a.get()` and `a2.get()` are both asserted to be 1. -/
theorem shared_borrow_reads_through_witness :
    (⟨2, 0, 1, false⟩ : ValContext Int).moved = false ∧
    ValRef.get (⟨2, 0, 1, false⟩ : ValContext Int) = (Except.ok 1, ⟨2, 0, 1, false⟩) ∧
    World.step
      (⟨[⟨Owner.val ⟨⟨2, 0, 1, false⟩⟩, true⟩],
        [⟨Handle.ref ⟨some 0⟩, true⟩, ⟨Handle.ref ⟨some 0⟩, true⟩]⟩ : World Int)
      (Op.borrowGet 1) =
      Result.ok ⟨[⟨Owner.val ⟨⟨2, 0, 1, false⟩⟩, true⟩],
        [⟨Handle.ref ⟨some 0⟩, true⟩, ⟨Handle.ref ⟨some 0⟩, true⟩]⟩ ∧
    World.valueRead
      (⟨[⟨Owner.val ⟨⟨2, 0, 1, false⟩⟩, true⟩],
        [⟨Handle.ref ⟨some 0⟩, true⟩, ⟨Handle.ref ⟨some 0⟩, true⟩]⟩ : World Int)
      (Op.borrowGet 1) = some 1 :=
  ⟨rfl, (shared_borrow_reads_through (⟨2, 0, 1, false⟩ : ValContext Int) 5 rfl).1,
   (shared_borrow_reads_through (⟨2, 0, 1, false⟩ : ValContext Int) 5 rfl).2.2.1
     ⟨[⟨Owner.val ⟨⟨2, 0, 1, false⟩⟩, true⟩],
      [⟨Handle.ref ⟨some 0⟩, true⟩, ⟨Handle.ref ⟨some 0⟩, true⟩]⟩ 1 0
     (Owner.val ⟨⟨2, 0, 1, false⟩⟩) (by decide) (by decide) rfl⟩

/-- C15: for an owner that has not been moved from, the destructor (`~Val`, `~ValMut`)
returns if and only if `refs == 0`; with `refs != 0` it stops at "ValRefs lifetime
excedds owner's lifetime" and leaves the owner as it was; and `~ValMut` with `refs == 0`
and `mutRefs == 1` returns. -/
theorem destroy_iff_refs_zero (c : ValContext T) (hm : c.moved = false) :
    ((Val.destroy { context := c }).1 = Except.ok () ↔ c.refs = 0) ∧
    ((ValMut.destroy { context := c }).1 = Except.ok () ↔ c.refs = 0) ∧
    (c.refs ≠ 0 →
      Val.destroy { context := c } = (Except.error Violation.refsOutlive, { context := c }) ∧
      ValMut.destroy { context := c } =
        (Except.error Violation.refsOutlive, { context := c })) ∧
    (c.refs = 0 →
      Val.destroy { context := c } = (Except.ok (), { context := c }) ∧
      ValMut.destroy { context := c } = (Except.ok (), { context := c })) ∧
    ValMut.destroy { context := { refs := 0, mutRefs := 1, val := c.val, moved := false } } =
      (Except.ok (), { context := { refs := 0, mutRefs := 1, val := c.val, moved := false } }) := by
  obtain ⟨r, m, v0, mv⟩ := c
  simp only at hm
  subst hm
  by_cases hr : r = 0 <;>
    simp [Val.destroy, ValMut.destroy, onContext, andThen, ValContext.getRefs, hr]

/-- Witness for C15: a `ValMut` with a live exclusive borrow and no shared borrow. -/
theorem destroy_iff_refs_zero_witness :
    (⟨0, 1, 10, false⟩ : ValContext Int).moved = false ∧
    ((ValMut.destroy (⟨⟨0, 1, 10, false⟩⟩ : ValMut Int)).1 = Except.ok () ↔
      (⟨0, 1, 10, false⟩ : ValContext Int).refs = 0) :=
  ⟨rfl, (destroy_iff_refs_zero (⟨0, 1, 10, false⟩ : ValContext Int) rfl).2.1⟩

/-- C16 (as stated, refuted): after `check::Val<int> x = 1;` and 4294967295 calls of
`x.getRef()` whose borrows all stay in scope, `refs` is 4294967295, and one more
`getRef` (on a `Val` or a `ValMut` with that counter) returns and leaves `refs == 0`:
the counter has not been incremented by 1. -/
theorem getRef_wraps_at_uint_max :
    ∃ w : World Int,
      World.run World.empty (Op.newVal 1 :: List.replicate 4294967295 (Op.getRef 0)) =
        Result.ok w ∧
      w.owner 0 = some (Owner.val ⟨⟨4294967295, 0, 1, false⟩⟩) ∧
      Val.getRef (⟨⟨4294967295, 0, 1, false⟩⟩ : Val Int) =
        (Except.ok (), ⟨⟨0, 0, 1, false⟩⟩) ∧
      ValMut.getRef (⟨⟨4294967295, 0, 1, false⟩⟩ : ValMut Int) =
        (Except.ok (), ⟨⟨0, 0, 1, false⟩⟩) := by
  obtain ⟨w, h1, _, h3, _⟩ := after_getRefs (1 : Int) 4294967295
  have h5 : w.owner 0 = some (Owner.val ⟨⟨4294967295, 0, 1, false⟩⟩) := h3
  exact ⟨w, h1, h5, by decide, by decide⟩

/-- C16 (amended): `getRef` on an owner of either class that has not been moved from
returns whatever `refs` and `mutRefs` are, makes `refs` equal to `(refs + 1) mod 2^32`,
that is `refs + 1` unless `refs` was 2^32 - 1, and leaves `mutRefs`, `val` and `moved` as
they were. -/
theorem getRef_adds_one_mod_uint (c : ValContext T) (hm : c.moved = false) :
    Val.getRef { context := c } =
      (Except.ok (),
       { context := { refs := (c.refs + 1) % UINT_MOD, mutRefs := c.mutRefs, val := c.val,
                      moved := c.moved } }) ∧
    ValMut.getRef { context := c } =
      (Except.ok (),
       { context := { refs := (c.refs + 1) % UINT_MOD, mutRefs := c.mutRefs, val := c.val,
                      moved := c.moved } }) ∧
    (c.refs + 1 < UINT_MOD →
      (Val.getRef { context := c }).2.context.refs = c.refs + 1 ∧
      (ValMut.getRef { context := c }).2.context.refs = c.refs + 1) ∧
    (c.refs + 1 = UINT_MOD →
      (Val.getRef { context := c }).2.context.refs = 0 ∧
      (ValMut.getRef { context := c }).2.context.refs = 0) := by
  obtain ⟨r, m, v0, mv⟩ := c
  simp only at hm
  subst hm
  refine ⟨?_, ?_, ?_, ?_⟩
  · simp [Val.getRef, onContext, ValContext.addRef]
  · simp [ValMut.getRef, onContext, ValContext.addRef]
  · intro hlt
    simp only at hlt
    simp [Val.getRef, ValMut.getRef, onContext, ValContext.addRef, Nat.mod_eq_of_lt hlt]
  · intro heq
    simp only at heq
    simp [Val.getRef, ValMut.getRef, onContext, ValContext.addRef, heq]

/-- Witness for C16 (amended): `getRef` on a `ValMut` with a live exclusive borrow. -/
theorem getRef_adds_one_mod_uint_witness :
    (⟨0, 1, 10, false⟩ : ValContext Int).moved = false ∧
    ValMut.getRef (⟨⟨0, 1, 10, false⟩⟩ : ValMut Int) =
      (Except.ok (), ⟨⟨(0 + 1) % UINT_MOD, 1, 10, false⟩⟩) ∧
    (ValMut.getRef (⟨⟨0, 1, 10, false⟩⟩ : ValMut Int)).2.context.refs = 0 + 1 :=
  ⟨rfl, (getRef_adds_one_mod_uint (⟨0, 1, 10, false⟩ : ValContext Int) rfl).2.1,
   ((getRef_adds_one_mod_uint (⟨0, 1, 10, false⟩ : ValContext Int) rfl).2.2.1
      (by decide)).2⟩

/-- C18: on a context that has not been moved from, `removeRef` fails if and only if
`refs == 0` and `removeMutRef` fails if and only if `mutRefs == 0`; when they return
they have decremented that counter by 1 and left the other counter, `val` and `moved`
as they were; when they fail the context is as it was. -/
theorem remove_fails_iff_zero (c : ValContext T) (hm : c.moved = false) :
    ((ValContext.removeRef c).1 = Except.error Violation.noRefs ↔ c.refs = 0) ∧
    ((ValContext.removeMutRef c).1 = Except.error Violation.noMutRefs ↔ c.mutRefs = 0) ∧
    ((∃ e, (ValContext.removeRef c).1 = Except.error e) ↔ c.refs = 0) ∧
    ((∃ e, (ValContext.removeMutRef c).1 = Except.error e) ↔ c.mutRefs = 0) ∧
    (c.refs ≠ 0 →
      ValContext.removeRef c =
        (Except.ok (),
         { refs := c.refs - 1, mutRefs := c.mutRefs, val := c.val, moved := c.moved }) ∧
      c.refs - 1 + 1 = c.refs) ∧
    (c.mutRefs ≠ 0 →
      ValContext.removeMutRef c =
        (Except.ok (),
         { refs := c.refs, mutRefs := c.mutRefs - 1, val := c.val, moved := c.moved }) ∧
      c.mutRefs - 1 + 1 = c.mutRefs) ∧
    (c.refs = 0 → ValContext.removeRef c = (Except.error Violation.noRefs, c)) ∧
    (c.mutRefs = 0 → ValContext.removeMutRef c = (Except.error Violation.noMutRefs, c)) := by
  obtain ⟨r, m, v0, mv⟩ := c
  simp only at hm
  subst hm
  refine ⟨?_, ?_, ?_, ?_, ?_, ?_, ?_, ?_⟩
  · by_cases hr : r = 0 <;> simp [ValContext.removeRef, hr]
  · by_cases hr : m = 0 <;> simp [ValContext.removeMutRef, hr]
  · by_cases hr : r = 0 <;> simp [ValContext.removeRef, hr]
  · by_cases hr : m = 0 <;> simp [ValContext.removeMutRef, hr]
  · intro hr
    simp only at hr
    refine ⟨by simp [ValContext.removeRef, hr], ?_⟩
    show r - 1 + 1 = r
    omega
  · intro hr
    simp only at hr
    refine ⟨by simp [ValContext.removeMutRef, hr], ?_⟩
    show m - 1 + 1 = m
    omega
  · intro hr
    simp only at hr
    simp [ValContext.removeRef, hr]
  · intro hr
    simp only at hr
    simp [ValContext.removeMutRef, hr]

/-- Witness for C18: a context with two shared borrows and no exclusive borrow counted. -/
theorem remove_fails_iff_zero_witness :
    (⟨2, 0, 7, false⟩ : ValContext Int).moved = false ∧
    ValContext.removeRef (⟨2, 0, 7, false⟩ : ValContext Int) =
      (Except.ok (), ⟨1, 0, 7, false⟩) ∧
    ValContext.removeMutRef (⟨2, 0, 7, false⟩ : ValContext Int) =
      (Except.error Violation.noMutRefs, ⟨2, 0, 7, false⟩) :=
  ⟨rfl, ((remove_fails_iff_zero (⟨2, 0, 7, false⟩ : ValContext Int) rfl).2.2.2.2.1
      (by decide)).1,
   (remove_fails_iff_zero (⟨2, 0, 7, false⟩ : ValContext Int) rfl).2.2.2.2.2.2.2 rfl⟩

/-- C20: move construction from a source that has already been moved from has no
assertion on its path: it returns a new owner whose context has `moved == true` and the
`refs`, `mutRefs` and `val` of the source, and leaves the source as it was; on that new
owner `get`, `getRef` and, for a `ValMut`, `set` and `getMutRef` stop at
`assert(!this->moved)` and leave it as it was, so they fail every time they are
called. -/
theorem move_from_moved_yields_moved (c : ValContext T) (v : T) (hm : c.moved = true) :
    Val.move { context := c } = ({ context := c }, { context := c }) ∧
    ValMut.move { context := c } = ({ context := c }, { context := c }) ∧
    (Val.move { context := c }).1.context.moved = true ∧
    (ValMut.move { context := c }).1.context.moved = true ∧
    Val.get (Val.move { context := c }).1 =
      (Except.error Violation.moved, (Val.move { context := c }).1) ∧
    Val.getRef (Val.move { context := c }).1 =
      (Except.error Violation.moved, (Val.move { context := c }).1) ∧
    ValMut.get (ValMut.move { context := c }).1 =
      (Except.error Violation.moved, (ValMut.move { context := c }).1) ∧
    ValMut.set (ValMut.move { context := c }).1 v =
      (Except.error Violation.moved, (ValMut.move { context := c }).1) ∧
    ValMut.getRef (ValMut.move { context := c }).1 =
      (Except.error Violation.moved, (ValMut.move { context := c }).1) ∧
    ValMut.getMutRef (ValMut.move { context := c }).1 =
      (Except.error Violation.moved, (ValMut.move { context := c }).1) := by
  obtain ⟨r, m, v0, mv⟩ := c
  simp only at hm
  subst hm
  simp [Val.move, ValMut.move, Val.get, Val.getRef, ValMut.get, ValMut.set, ValMut.getRef,
    ValMut.getMutRef, onContext, andThen, ValContext.getVal, ValContext.getRefs,
    ValContext.getMutRefs, ValContext.addRef, ValContext.setVal, ValContext.moveAssign,
    ValContext.assign]

/-- Witness for C20: `a` moved into `b`, then `a` moved again into `c2`, in a program. -/
theorem move_from_moved_yields_moved_witness :
    (⟨0, 0, 1, true⟩ : ValContext Int).moved = true ∧
    World.run World.empty [Op.newValMut (1 : Int), Op.relocate 0, Op.relocate 0] =
      Result.ok
        ⟨[⟨Owner.valMut ⟨⟨0, 0, 1, true⟩⟩, true⟩, ⟨Owner.valMut ⟨⟨0, 0, 1, false⟩⟩, true⟩,
          ⟨Owner.valMut ⟨⟨0, 0, 1, true⟩⟩, true⟩], []⟩ ∧
    ValMut.move (⟨⟨0, 0, 1, true⟩⟩ : ValMut Int) = (⟨⟨0, 0, 1, true⟩⟩, ⟨⟨0, 0, 1, true⟩⟩) ∧
    ValMut.getMutRef (ValMut.move (⟨⟨0, 0, 1, true⟩⟩ : ValMut Int)).1 =
      (Except.error Violation.moved, (ValMut.move (⟨⟨0, 0, 1, true⟩⟩ : ValMut Int)).1) :=
  ⟨rfl, by decide,
   (move_from_moved_yields_moved (⟨0, 0, 1, true⟩ : ValContext Int) 5 rfl).2.1,
   (move_from_moved_yields_moved (⟨0, 0, 1, true⟩ : ValContext Int) 5 rfl).2.2.2.2.2.2.2.2.2⟩

end Claims

end check
